import Mathlib

/-!
Verification of the AI decision engine of a 3x3 tic-tac-toe program.

The source program (v2.py) stores the board as a Python list of three
lists of three strings; a cell holds the empty string, or a player's
symbol string.  We embed the board as `List (List String)` and the AI
methods (`_check_winner`, `_is_board_full`, `_get_random_move`,
`_get_medium_move`, `_get_minimax_move`, `_minimax`, `get_move`) as pure
Lean functions over it.

Two modelling notes, both marked again at the definitions they concern:

* Python's recursion in `_minimax` has no syntactic termination measure
  (and genuinely diverges when asked to place the empty string); the
  embedding therefore takes an explicit `fuel` argument, with lemmas
  showing that any fuel exceeding the number of empty cells computes the
  same value, so fuel `9` at the call sites of the program is exact.
* `random.choice(moves)` draws from Python's global RNG; the draw is
  modelled by an explicit argument `r : Nat`, the choice being
  `moves[r % moves.length]`, so that every index is covered by some `r`.

The in-place mutation (`board[i][j] = sym` ... `board[i][j] = ''`) is
modelled twice: the main definitions are pure (each trial placement
builds a new board, the "undo" being the unchanged original), and a
second, state-passing embedding (`minimaxSt` etc.) performs the
mutate/recurse/restore sequence literally, returning the final board, so
that the restoration claims are about the mutation the source performs.
-/

/-- A board is a list of rows of cell strings, as in the Python source. -/
abbrev Board := List (List String)

/-- A well-formed board has exactly three rows of three cells: the shape
the surrounding program always supplies. -/
def WF (b : Board) : Prop := b.length = 3 ∧ ∀ r ∈ b, r.length = 3

instance (b : Board) : Decidable (WF b) := by
  unfold WF
  infer_instance

/-- Reading `board[i][j]`; out-of-range reads (which raise in Python and
never occur in the program's loops) default to the empty string. -/
def cell (b : Board) (i j : Nat) : String := (b.getD i []).getD j ""

/-- Writing `board[i][j] = s`; out of range the write is a no-op. -/
def setCell (b : Board) (i j : Nat) (s : String) : Board :=
  b.set i ((b.getD i []).set j s)

/-- The row-major coordinate order of the loops
`for i in range(3): for j in range(3)`. -/
def cells9 : List (Nat × Nat) :=
  [(0,0),(0,1),(0,2),(1,0),(1,1),(1,2),(2,0),(2,1),(2,2)]

/-- One line test of `_check_winner`:
`row[0] == row[1] == row[2] and row[0] != ''`, yielding the symbol. -/
def lineVal (a b c : String) : Option String :=
  if a = b ∧ b = c ∧ a ≠ "" then some a else none

/-- Embeds `AI._check_winner`: rows (in list order, as `for row in
board`), then columns 0,1,2, then the main diagonal, then the
anti-diagonal, returning the first complete line's symbol. -/
def check_winner (b : Board) : Option String :=
  match b.findSome? (fun row => lineVal (row.getD 0 "") (row.getD 1 "") (row.getD 2 "")) with
  | some w => some w
  | none =>
    match [0,1,2].findSome? (fun c => lineVal (cell b 0 c) (cell b 1 c) (cell b 2 c)) with
    | some w => some w
    | none =>
      match lineVal (cell b 0 0) (cell b 1 1) (cell b 2 2) with
      | some w => some w
      | none => lineVal (cell b 0 2) (cell b 1 1) (cell b 2 0)

/-- Embeds `AI._is_board_full`: every cell of every row is non-empty. -/
def is_board_full (b : Board) : Bool :=
  b.all (fun row => row.all (fun c => !(c == "")))

/-- The `available_moves` list built by `AI._get_random_move`: the
row-major coordinates of the empty cells. -/
def availableMoves (b : Board) : List (Nat × Nat) :=
  cells9.filter (fun c => decide (cell b c.1 c.2 = ""))

/-- Embeds `AI._get_random_move`; the `random.choice` draw is modelled
by the index argument `r` (see the file comment).  On an empty move list
the source falls back to `(0, 0)`. -/
def get_random_move (b : Board) (r : Nat) : Nat × Nat :=
  let moves := availableMoves b
  if moves.isEmpty then (0, 0) else moves.getD (r % moves.length) (0, 0)

/-- Embeds `AI._get_medium_move`: scan the cells row-major; on the first
empty cell where hypothetically placing the opponent's symbol makes
`_check_winner` return that symbol, return that cell; otherwise fall
back to `_get_random_move`. -/
def get_medium_move (b : Board) (player_symbol : String) (r : Nat) : Nat × Nat :=
  match cells9.find? (fun c =>
      decide (cell b c.1 c.2 = "" ∧
        check_winner (setCell b c.1 c.2 player_symbol) = some player_symbol)) with
  | some c => c
  | none => get_random_move b r

/-- Python's `-math.inf`, integers, and `math.inf`, the values flowing
through `best_score` in `_minimax` and `_get_minimax_move`. -/
inductive XInt where
  | negInf : XInt
  | fin : Int → XInt
  | posInf : XInt
deriving DecidableEq, Repr

/-- Strict `<` on scores, as Python compares ints and infinities. -/
def XInt.blt : XInt → XInt → Bool
  | negInf, negInf => false
  | negInf, _ => true
  | fin _, negInf => false
  | fin a, fin b => a < b
  | fin _, posInf => true
  | posInf, _ => false

/-- Python `max(x, y)` (left argument on ties, which is value-irrelevant). -/
def XInt.max (x y : XInt) : XInt := if XInt.blt x y then y else x

/-- Python `min(x, y)`. -/
def XInt.min (x y : XInt) : XInt := if XInt.blt y x then y else x

/-- Non-strict order on scores, derived from the comparison the code runs. -/
def XInt.le (x y : XInt) : Prop := XInt.blt y x = false

/-- Strict order on scores as a proposition. -/
def XInt.lt (x y : XInt) : Prop := XInt.blt x y = true

/-- Embeds `AI._minimax` (with `self.symbol` passed explicitly as `sym`,
since Lean has no instance state).  `fuel` bounds the recursion depth;
the program's recursion has no structural measure, and lemmas below show
any `fuel` greater than the number of empty cells gives the exact value,
so the `9` used at the program's call sites is exact.  Terminal checks,
in source order: winner equals the AI symbol, winner equals the player
symbol, full board; otherwise fold `max`/`min` of the recursive scores
over the empty cells in row-major order, starting from `-inf` / `inf`. -/
def minimax (fuel : Nat) (b : Board) (depth : Int) (is_maximizing : Bool)
    (sym player_symbol : String) : XInt :=
  match fuel with
  | 0 => XInt.negInf
  | fuel + 1 =>
    let winner := check_winner b
    if winner = some sym then XInt.fin (10 - depth)
    else if winner = some player_symbol then XInt.fin (depth - 10)
    else if is_board_full b then XInt.fin 0
    else if is_maximizing then
      cells9.foldl (fun best c =>
        if cell b c.1 c.2 = "" then
          XInt.max (minimax fuel (setCell b c.1 c.2 sym) (depth + 1) false sym player_symbol) best
        else best) XInt.negInf
    else
      cells9.foldl (fun best c =>
        if cell b c.1 c.2 = "" then
          XInt.min (minimax fuel (setCell b c.1 c.2 player_symbol) (depth + 1) true sym player_symbol) best
        else best) XInt.posInf

/-- The score `_get_minimax_move` computes for a candidate cell: place
the AI's symbol there and run `_minimax` at depth 0 with the opponent to
move. -/
def cellScore (b : Board) (sym player_symbol : String) (c : Nat × Nat) : XInt :=
  minimax 9 (setCell b c.1 c.2 sym) 0 false sym player_symbol

/-- Embeds `AI._get_minimax_move`: row-major scan of the empty cells,
keeping the best score (starting at `-inf`) and best move (starting at
the `(0, 0)` default), replacing only on strict improvement. -/
def get_minimax_move (b : Board) (sym player_symbol : String) : Nat × Nat :=
  (cells9.foldl (fun (acc : XInt × (Nat × Nat)) c =>
    if cell b c.1 c.2 = "" then
      let score := cellScore b sym player_symbol c
      if acc.1.blt score then (score, c) else acc
    else acc) (XInt.negInf, (0, 0))).2

/-- The three difficulty tiers. -/
inductive Difficulty where
  | easy : Difficulty
  | medium : Difficulty
  | hard : Difficulty
deriving DecidableEq, Repr

/-- The `AI` object: a difficulty and the symbol it plays. -/
structure AI where
  difficulty : Difficulty
  symbol : String

/-- Embeds `AI.__init__`: whatever the difficulty, the symbol field is
set to the literal `'O'`. -/
def AI.init (difficulty : Difficulty) : AI := ⟨difficulty, "O"⟩

/-- Embeds `AI.get_move` (with the modelled RNG draw `r`): dispatch on
the difficulty tier. -/
def AI.get_move (ai : AI) (board : Board) (r : Nat) (player_symbol : String) : Nat × Nat :=
  match ai.difficulty with
  | .easy => get_random_move board r
  | .medium => get_medium_move board player_symbol r
  | .hard => get_minimax_move board ai.symbol player_symbol

/-- Python's `get_move` defaults `player_symbol` to `'X'`; callers that
pass no symbol (as `make_ai_move` does) get this entry point. -/
def AI.get_move_default (ai : AI) (board : Board) (r : Nat) : Nat × Nat :=
  ai.get_move board r "X"

/-- The empty board, as `GameManager` builds it. -/
def emptyBoard : Board := [["", "", ""], ["", "", ""], ["", "", ""]]

/-- Cells hold only the two game symbols or the empty marker; true of
every board the surrounding game can produce. -/
def CellsOK (b : Board) : Prop :=
  ∀ row ∈ b, ∀ x ∈ row, x = "" ∨ x = "X" ∨ x = "O"

instance (b : Board) : Decidable (CellsOK b) := by
  unfold CellsOK
  infer_instance

/-- Game playout in which the Hard AI (symbol `'O'`) selects every one
of its own moves via `_get_minimax_move` and the opponent (`'X'`) plays
the supplied move list; stops at a win or a full board.  Used to state
game-outcome claims about the Hard tier. -/
def playFrom : Nat → Board → Bool → List (Nat × Nat) → Board
  | 0, b, _, _ => b
  | fuel + 1, b, aiTurn, opp =>
    match check_winner b with
    | some _ => b
    | none =>
      if is_board_full b then b
      else if aiTurn then
        playFrom fuel
          (setCell b (get_minimax_move b "O" "X").1 (get_minimax_move b "O" "X").2 "O")
          false opp
      else
        match opp with
        | [] => b
        | c :: rest => playFrom fuel (setCell b c.1 c.2 "X") true rest

/-- The Hard AI (symbol `'O'`) does not lose any continuation from `b`:
at a terminal position the winner is not `'X'`; at its own turn the move
chosen by `_get_minimax_move` leads to a no-loss position; at the
opponent's turn every available `'X'` reply leads to a no-loss position.
`fuel` exceeds the number of empty cells at every use below. -/
def aiSafe : Nat → Board → Bool → Bool
  | 0, _, _ => false
  | fuel + 1, b, aiTurn =>
    match check_winner b with
    | some w => !(w == "X")
    | none =>
      if is_board_full b then true
      else if aiTurn then
        aiSafe fuel
          (setCell b (get_minimax_move b "O" "X").1 (get_minimax_move b "O" "X").2 "O") false
      else
        (availableMoves b).all (fun c => aiSafe fuel (setCell b c.1 c.2 "X") true)

/-- Plain and-or game search: does `'O'` have any strategy that avoids
losing?  Short-circuiting, hence cheap to evaluate; linked to the sign
of the `_minimax` score by `noLoseSearch_iff_ge0` below. -/
def noLoseSearch : Nat → Board → Bool → Bool
  | 0, _, _ => false
  | fuel + 1, b, aiTurn =>
    match check_winner b with
    | some w => !(w == "X")
    | none =>
      if is_board_full b then true
      else if aiTurn then
        (availableMoves b).any (fun c => noLoseSearch fuel (setCell b c.1 c.2 "O") false)
      else
        (availableMoves b).all (fun c => noLoseSearch fuel (setCell b c.1 c.2 "X") true)

/-- The board of the specification's test scenario `[[X,O,X],[O,X,O],[_,_,_]]`;
legally reachable with `'O'` having moved first, `'O'` to move. -/
def scenarioBoard : Board := [["X", "O", "X"], ["O", "X", "O"], ["", "", ""]]

/-- The draw board used as the concrete full-board input. -/
def fullBoard : Board := [["X", "X", "O"], ["O", "O", "X"], ["X", "O", "X"]]

/-- Apply a sequence of placements (cell, symbol) in order. -/
def placeAll (b : Board) (moves : List ((Nat × Nat) × String)) : Board :=
  moves.foldl (fun acc mv => setCell acc mv.1.1 mv.1.2 mv.2) b

/-- Each placement of the sequence lands on an empty cell of a board
with no winner yet: the sequence is a legal play prefix. -/
def legalSeq : Board → List ((Nat × Nat) × String) → Bool
  | _, [] => true
  | b, mv :: rest =>
      (cell b mv.1.1 mv.1.2 == "") && (check_winner b == none)
        && legalSeq (setCell b mv.1.1 mv.1.2 mv.2) rest

/-- Specification-side selector: the first element of the list attaining
the maximal value of `f`, later elements replacing the current choice
only on strictly greater value.  Written from the spec sentence "returns
the first cell in row-major scan order among the Empty cells whose
minimax score is maximal; ties broken by first-encountered". -/
def firstMaxCell (f : Nat × Nat → XInt) : List (Nat × Nat) → Option (Nat × Nat)
  | [] => none
  | c :: rest =>
    match firstMaxCell f rest with
    | none => some c
    | some m => if (f c).blt (f m) then some m else some c

/-- How the best-score fold treats the outcome of the scan of the
remaining cells: keep the accumulator, or switch to the challenger on
strict improvement. -/
def pickStep (f : Nat × Nat → XInt) (acc : XInt × (Nat × Nat)) :
    Option (Nat × Nat) → XInt × (Nat × Nat)
  | none => acc
  | some k => if acc.1.blt (f k) then (f k, k) else acc

/-- Specification-side list of the 8 lines in the documented scan order:
rows 0,1,2, columns 0,1,2, main diagonal, anti-diagonal. -/
def linesSpec : List ((Nat × Nat) × (Nat × Nat) × (Nat × Nat)) :=
  [((0,0),(0,1),(0,2)), ((1,0),(1,1),(1,2)), ((2,0),(2,1),(2,2)),
   ((0,0),(1,0),(2,0)), ((0,1),(1,1),(2,1)), ((0,2),(1,2),(2,2)),
   ((0,0),(1,1),(2,2)), ((0,2),(1,1),(2,0))]

/-- Specification-side winner function: scan `linesSpec` in order and
return the symbol of the first line whose three cells hold the same
non-empty symbol. -/
def findWinnerSpec (b : Board) : Option String :=
  linesSpec.findSome? (fun l =>
    lineVal (cell b l.1.1 l.1.2) (cell b l.2.1.1 l.2.1.2) (cell b l.2.2.1 l.2.2.2))

/-- State-passing embedding of `AI._minimax`, performing the source's
`board[i][j] = sym` / recurse / `board[i][j] = ''` sequence literally
and returning the final board together with the score. -/
def minimaxSt (fuel : Nat) (b : Board) (depth : Int) (is_maximizing : Bool)
    (sym player_symbol : String) : XInt × Board :=
  match fuel with
  | 0 => (XInt.negInf, b)
  | fuel + 1 =>
    let winner := check_winner b
    if winner = some sym then (XInt.fin (10 - depth), b)
    else if winner = some player_symbol then (XInt.fin (depth - 10), b)
    else if is_board_full b then (XInt.fin 0, b)
    else if is_maximizing then
      cells9.foldl (fun (acc : XInt × Board) c =>
        if cell acc.2 c.1 c.2 = "" then
          let placed := setCell acc.2 c.1 c.2 sym
          let res := minimaxSt fuel placed (depth + 1) false sym player_symbol
          (XInt.max res.1 acc.1, setCell res.2 c.1 c.2 "")
        else acc) (XInt.negInf, b)
    else
      cells9.foldl (fun (acc : XInt × Board) c =>
        if cell acc.2 c.1 c.2 = "" then
          let placed := setCell acc.2 c.1 c.2 player_symbol
          let res := minimaxSt fuel placed (depth + 1) true sym player_symbol
          (XInt.min res.1 acc.1, setCell res.2 c.1 c.2 "")
        else acc) (XInt.posInf, b)

/-- State-passing embedding of `AI._get_minimax_move`: threads the board
through every place/score/undo step of the loop and returns it. -/
def get_minimax_moveSt (b : Board) (sym player_symbol : String) : (Nat × Nat) × Board :=
  let r := cells9.foldl (fun (acc : (XInt × (Nat × Nat)) × Board) c =>
    if cell acc.2 c.1 c.2 = "" then
      (if acc.1.1.blt (minimaxSt 9 (setCell acc.2 c.1 c.2 sym) 0 false sym player_symbol).1
        then ((minimaxSt 9 (setCell acc.2 c.1 c.2 sym) 0 false sym player_symbol).1, c)
        else acc.1,
        setCell (minimaxSt 9 (setCell acc.2 c.1 c.2 sym) 0 false sym player_symbol).2
          c.1 c.2 "")
    else acc) ((XInt.negInf, (0, 0)), b)
  (r.1.2, r.2)

/-- State-passing embedding of the blocking loop of `AI._get_medium_move`:
place the opponent symbol, test the winner, undo, either returning the
cell early or scanning on. -/
def mediumLoopSt : List (Nat × Nat) → Board → String → Option (Nat × Nat) × Board
  | [], b, _ => (none, b)
  | c :: rest, b, player_symbol =>
    if cell b c.1 c.2 = "" then
      let placed := setCell b c.1 c.2 player_symbol
      if check_winner placed = some player_symbol then
        (some c, setCell placed c.1 c.2 "")
      else
        mediumLoopSt rest (setCell placed c.1 c.2 "") player_symbol
    else
      mediumLoopSt rest b player_symbol

/-- State-passing embedding of `AI._get_medium_move`. -/
def get_medium_moveSt (b : Board) (player_symbol : String) (r : Nat) : (Nat × Nat) × Board :=
  match mediumLoopSt cells9 b player_symbol with
  | (some c, b2) => (c, b2)
  | (none, b2) => (get_random_move b2 r, b2)

/-- State-passing embedding of `AI.get_move`: the board that the caller
observes after the call, for every difficulty tier. -/
def AI.get_moveSt (ai : AI) (board : Board) (r : Nat) (player_symbol : String) :
    (Nat × Nat) × Board :=
  match ai.difficulty with
  | .easy => (get_random_move board r, board)
  | .medium => get_medium_moveSt board player_symbol r
  | .hard => get_minimax_moveSt board ai.symbol player_symbol

/-! ### Order facts about `XInt` -/

namespace XInt

lemma blt_irrefl (x : XInt) : x.blt x = false := by
  cases x <;> simp [blt]

lemma le_refl (x : XInt) : x.le x := blt_irrefl x

lemma le_negInf_bot (x : XInt) : negInf.le x := by
  cases x <;> simp [le, blt]

lemma le_posInf_top (x : XInt) : x.le posInf := by
  cases x <;> simp [le, blt]

lemma le_of_blt_eq_false {x y : XInt} (h : x.blt y = false) : y.le x := h

lemma le_trans {x y z : XInt} (h1 : x.le y) (h2 : y.le z) : x.le z := by
  cases x <;> cases y <;> cases z <;>
    simp_all [le, blt] <;> omega

lemma le_of_lt {x y : XInt} (h : x.lt y) : x.le y := by
  cases x <;> cases y <;> simp_all [le, lt, blt] <;> omega

lemma lt_of_lt_of_le {x y z : XInt} (h1 : x.lt y) (h2 : y.le z) : x.lt z := by
  cases x <;> cases y <;> cases z <;>
    simp_all [le, lt, blt] <;> omega

lemma le_of_not_blt {x y : XInt} (h : x.blt y = false) : y.le x := h

lemma blt_eq_false_of_le {x y : XInt} (h : x.le y) : y.blt x = false := h

lemma le_total_cases (x y : XInt) : x.blt y = true ∨ x.blt y = false := by
  cases h : x.blt y
  · exact Or.inr rfl
  · exact Or.inl rfl

lemma fin_le_fin_iff {a b : Int} : (fin a).le (fin b) ↔ a ≤ b := by
  simp [le, blt]

lemma fin_lt_fin_iff {a b : Int} : (fin a).lt (fin b) ↔ a < b := by
  simp [lt, blt]

lemma not_fin_le_negInf (a : Int) : ¬ (fin a).le negInf := by
  simp [le, blt]

lemma le_max_left (x y : XInt) : x.le (max x y) := by
  unfold max
  split
  · exact le_of_lt (by assumption)
  · exact le_refl x

lemma le_max_right (x y : XInt) : y.le (max x y) := by
  unfold max
  split
  · exact le_refl y
  · next h =>
    exact le_of_not_blt (by simpa using h)

lemma max_le {x y z : XInt} (h1 : x.le z) (h2 : y.le z) : (max x y).le z := by
  unfold max
  split <;> assumption

lemma max_cases (x y : XInt) : max x y = x ∨ max x y = y := by
  unfold max
  split
  · exact Or.inr rfl
  · exact Or.inl rfl

lemma min_le_left (x y : XInt) : (min x y).le x := by
  unfold min
  split
  · exact le_of_lt (by assumption)
  · exact le_refl x

lemma min_le_right (x y : XInt) : (min x y).le y := by
  unfold min
  split
  · exact le_refl y
  · next h =>
    exact le_of_not_blt (by simpa using h)

lemma le_min {x y z : XInt} (h1 : z.le x) (h2 : z.le y) : z.le (min x y) := by
  unfold min
  split <;> assumption

lemma min_cases (x y : XInt) : min x y = x ∨ min x y = y := by
  unfold min
  split
  · exact Or.inr rfl
  · exact Or.inl rfl

end XInt

/-! ### Generic list lemmas for the source's guarded folds and scans -/

/-- A fold whose step skips elements failing `p` equals the fold over
the `decide`-filtered list: the shape shared by `_minimax`'s loops and
`available_moves`. -/
lemma foldl_guard_eq_filter {α β : Type} (p : α → Prop) [DecidablePred p]
    (g : β → α → β) :
    ∀ (l : List α) (init : β),
      l.foldl (fun acc c => if p c then g acc c else acc) init
        = (l.filter (fun c => decide (p c))).foldl g init := by
  intro l
  induction l with
  | nil => intro init; rfl
  | cons a t ih =>
    intro init
    by_cases h : p a <;> simp [List.foldl_cons, List.filter_cons, h, ih]

/-- `find?` is the head of the filtered list. -/
lemma find?_eq_head_filter {α : Type} (p : α → Bool) :
    ∀ l : List α, l.find? p = (l.filter p).head? := by
  intro l
  induction l with
  | nil => rfl
  | cons a t ih =>
    by_cases h : p a = true
    · simp [List.find?_cons, List.filter_cons, h]
    · rw [Bool.not_eq_true] at h
      simp only [List.find?_cons, List.filter_cons, h]
      simpa using ih

/-- Max-fold lemmas, for the maximizing loop of `_minimax`. -/
lemma maxfold_ge_init (f : Nat × Nat → XInt) :
    ∀ (l : List (Nat × Nat)) (init : XInt),
      init.le (l.foldl (fun best c => XInt.max (f c) best) init) := by
  intro l
  induction l with
  | nil => intro init; exact XInt.le_refl init
  | cons a t ih =>
    intro init
    exact XInt.le_trans (XInt.le_max_right (f a) init) (ih _)

lemma maxfold_ge_elem (f : Nat × Nat → XInt) :
    ∀ (l : List (Nat × Nat)) (init : XInt) (c : Nat × Nat), c ∈ l →
      (f c).le (l.foldl (fun best c => XInt.max (f c) best) init) := by
  intro l
  induction l with
  | nil => intro _ c hc; simp at hc
  | cons a t ih =>
    intro init c hc
    rcases List.mem_cons.mp hc with h | h
    · subst h
      exact XInt.le_trans (XInt.le_max_left (f c) init) (maxfold_ge_init f t _)
    · exact ih _ c h

lemma maxfold_eq_init_or_mem (f : Nat × Nat → XInt) :
    ∀ (l : List (Nat × Nat)) (init : XInt),
      (l.foldl (fun best c => XInt.max (f c) best) init) = init ∨
        ∃ c ∈ l, (l.foldl (fun best c => XInt.max (f c) best) init) = f c := by
  intro l
  induction l with
  | nil => intro init; exact Or.inl rfl
  | cons a t ih =>
    intro init
    rcases ih (XInt.max (f a) init) with h | ⟨c, hc, h⟩
    · simp only [List.foldl_cons]
      rcases XInt.max_cases (f a) init with hm | hm
      · rw [h, hm]
        exact Or.inr ⟨a, List.mem_cons_self a t, rfl⟩
      · rw [h, hm]
        exact Or.inl rfl
    · exact Or.inr ⟨c, List.mem_cons_of_mem a hc, by simpa using h⟩

lemma maxfold_le (f : Nat × Nat → XInt) :
    ∀ (l : List (Nat × Nat)) (init : XInt) (bound : XInt),
      init.le bound → (∀ c ∈ l, (f c).le bound) →
      (l.foldl (fun best c => XInt.max (f c) best) init).le bound := by
  intro l
  induction l with
  | nil => intro init bound h _; exact h
  | cons a t ih =>
    intro init bound hinit helem
    refine ih _ bound ?_ ?_
    · exact XInt.max_le (helem a (List.mem_cons_self a t)) hinit
    · intro c hc
      exact helem c (List.mem_cons_of_mem a hc)

/-- Min-fold lemmas, for the minimizing loop of `_minimax`. -/
lemma minfold_le_init (f : Nat × Nat → XInt) :
    ∀ (l : List (Nat × Nat)) (init : XInt),
      (l.foldl (fun best c => XInt.min (f c) best) init).le init := by
  intro l
  induction l with
  | nil => intro init; exact XInt.le_refl init
  | cons a t ih =>
    intro init
    exact XInt.le_trans (ih _) (XInt.min_le_right (f a) init)

lemma minfold_le_elem (f : Nat × Nat → XInt) :
    ∀ (l : List (Nat × Nat)) (init : XInt) (c : Nat × Nat), c ∈ l →
      (l.foldl (fun best c => XInt.min (f c) best) init).le (f c) := by
  intro l
  induction l with
  | nil => intro _ c hc; simp at hc
  | cons a t ih =>
    intro init c hc
    rcases List.mem_cons.mp hc with h | h
    · subst h
      exact XInt.le_trans (minfold_le_init f t _) (XInt.min_le_left (f c) init)
    · exact ih _ c h

lemma minfold_eq_init_or_mem (f : Nat × Nat → XInt) :
    ∀ (l : List (Nat × Nat)) (init : XInt),
      (l.foldl (fun best c => XInt.min (f c) best) init) = init ∨
        ∃ c ∈ l, (l.foldl (fun best c => XInt.min (f c) best) init) = f c := by
  intro l
  induction l with
  | nil => intro init; exact Or.inl rfl
  | cons a t ih =>
    intro init
    rcases ih (XInt.min (f a) init) with h | ⟨c, hc, h⟩
    · simp only [List.foldl_cons]
      rcases XInt.min_cases (f a) init with hm | hm
      · rw [h, hm]
        exact Or.inr ⟨a, List.mem_cons_self a t, rfl⟩
      · rw [h, hm]
        exact Or.inl rfl
    · exact Or.inr ⟨c, List.mem_cons_of_mem a hc, by simpa using h⟩

lemma minfold_ge (f : Nat × Nat → XInt) :
    ∀ (l : List (Nat × Nat)) (init : XInt) (bound : XInt),
      bound.le init → (∀ c ∈ l, bound.le (f c)) →
      bound.le (l.foldl (fun best c => XInt.min (f c) best) init) := by
  intro l
  induction l with
  | nil => intro init bound h _; exact h
  | cons a t ih =>
    intro init bound hinit helem
    refine ih _ bound ?_ ?_
    · exact XInt.le_min (helem a (List.mem_cons_self a t)) hinit
    · intro c hc
      exact helem c (List.mem_cons_of_mem a hc)

/-- Strictly fewer elements survive a pointwise-stronger filter that
fails on one surviving element. -/
lemma filter_length_lt {α : Type} (p q : α → Bool) :
    ∀ (l : List α), (∀ a ∈ l, p a = true → q a = true) →
      ∀ a0 ∈ l, q a0 = true → p a0 = false →
      (l.filter p).length < (l.filter q).length := by
  intro l
  induction l with
  | nil => intro _ a0 h; simp at h
  | cons a t ih =>
    intro himp a0 ha0 hq hp
    rcases List.mem_cons.mp ha0 with h | h
    · have hqa : q a = true := h ▸ hq
      have hpa : p a = false := h ▸ hp
      rw [List.filter_cons, List.filter_cons, hqa, hpa]
      simp only [if_true]
      have hle : (t.filter p).length ≤ (t.filter q).length := by
        rw [← List.countP_eq_length_filter, ← List.countP_eq_length_filter]
        exact List.countP_mono_left (fun x hx hpx => himp x (List.mem_cons_of_mem a hx) hpx)
      simpa using Nat.lt_succ_of_le hle
    · have hlt := ih (fun x hx hpx => himp x (List.mem_cons_of_mem a hx) hpx) a0 h hq hp
      rw [List.filter_cons, List.filter_cons]
      by_cases hpa : p a = true
      · have hqa : q a = true := himp a (List.mem_cons_self a t) hpa
        simp only [hpa, hqa, if_true]
        simpa using Nat.succ_lt_succ hlt
      · rw [Bool.not_eq_true] at hpa
        rw [hpa]
        by_cases hqa : q a = true
        · simp only [hqa, if_true, if_false]
          exact Nat.lt_of_lt_of_le hlt (by simp [Nat.le_succ])
        · rw [Bool.not_eq_true] at hqa
          rw [hqa]
          simpa using hlt

/-! ### Board and cell lemmas -/

lemma getD_set_self_lt {α : Type} (l : List α) (i : Nat) (a d : α)
    (h : i < l.length) : (l.set i a).getD i d = a := by
  simp [List.getD_eq_getElem?_getD, List.getElem?_set_self h]

lemma getD_set_ne_aux {α : Type} (l : List α) (i k : Nat) (a d : α)
    (h : i ≠ k) : (l.set i a).getD k d = l.getD k d := by
  simp [List.getD_eq_getElem?_getD, List.getElem?_set_ne h]

lemma set_getD_id {α : Type} : ∀ (l : List α) (i : Nat) (d : α),
    l.set i (l.getD i d) = l := by
  intro l
  induction l with
  | nil => intro i d; rfl
  | cons a t ih =>
    intro i d
    cases i with
    | zero => simp [List.getD_eq_getElem?_getD]
    | succ i =>
      simp only [List.set]
      rw [show (a :: t).getD (i + 1) d = t.getD i d by
        simp [List.getD_eq_getElem?_getD]]
      rw [ih i d]

lemma set_of_getD_eq {α : Type} : ∀ (l : List α) (i : Nat) (d : α),
    l.getD i d = d → l.set i d = l := by
  intro l i d h
  have := set_getD_id l i d
  rw [h] at this
  exact this

/-- Writing some symbol into an empty cell and then writing the empty
string back restores the original board: the source's undo step. -/
lemma setCell_cancel (b : Board) (i j : Nat) (s : String)
    (h : cell b i j = "") : setCell (setCell b i j s) i j "" = b := by
  unfold setCell cell at *
  by_cases hi : i < b.length
  · rw [getD_set_self_lt b i _ [] hi, List.set_set, List.set_set,
      set_of_getD_eq _ j "" h, set_getD_id]
  · have hle : b.length ≤ i := Nat.le_of_not_lt hi
    rw [List.set_eq_of_length_le hle, List.set_eq_of_length_le hle]

/-- Reading back a different coordinate after a write. -/
lemma cell_setCell_ne (b : Board) (i j i2 j2 : Nat) (s : String)
    (h : (i2, j2) ≠ (i, j)) : cell (setCell b i j s) i2 j2 = cell b i2 j2 := by
  unfold cell setCell
  by_cases hi : i2 = i
  · subst hi
    have hj : j2 ≠ j := by
      intro hj
      exact h (by rw [hj])
    by_cases hlen : i2 < b.length
    · rw [getD_set_self_lt b i2 _ [] hlen]
      rw [getD_set_ne_aux _ j j2 s "" (Ne.symm hj)]
    · rw [List.set_eq_of_length_le (Nat.le_of_not_lt hlen)]
  · rw [getD_set_ne_aux b i i2 _ [] (Ne.symm hi)]

/-- Reading back the written coordinate on a well-formed board. -/
lemma cell_setCell_self (b : Board) (i j : Nat) (s : String)
    (hb : WF b) (hi : i < 3) (hj : j < 3) :
    cell (setCell b i j s) i j = s := by
  unfold cell setCell
  have hlen : i < b.length := by
    rw [hb.1]
    exact hi
  have hmem : b.getD i [] ∈ b := by
    simp only [List.getD_eq_getElem?_getD, List.getElem?_eq_getElem hlen]
    exact List.getElem_mem hlen
  have hrow : (b.getD i []).length = 3 := hb.2 _ hmem
  rw [getD_set_self_lt b i _ [] hlen]
  rw [getD_set_self_lt _ j s "" (by rw [hrow]; exact hj)]

/-- Writes preserve well-formedness. -/
lemma setCell_WF (b : Board) (i j : Nat) (s : String) (hb : WF b) :
    WF (setCell b i j s) := by
  obtain ⟨hlen, hrows⟩ := hb
  constructor
  · simpa [setCell] using hlen
  · intro r hr
    unfold setCell at hr
    by_cases hi : i < b.length
    · rcases List.mem_or_eq_of_mem_set hr with h | h
      · exact hrows r h
      · subst h
        rw [List.length_set]
        apply hrows
        have : b.getD i [] ∈ b := by
          simp only [List.getD_eq_getElem?_getD, List.getElem?_eq_getElem hi]
          exact List.getElem_mem hi
        exact this
    · rw [List.set_eq_of_length_le (Nat.le_of_not_lt hi)] at hr
      exact hrows r hr

lemma mem_availableMoves (b : Board) (c : Nat × Nat) :
    c ∈ availableMoves b ↔ c ∈ cells9 ∧ cell b c.1 c.2 = "" := by
  simp [availableMoves, List.mem_filter]

lemma cells9_coords (c : Nat × Nat) (h : c ∈ cells9) : c.1 < 3 ∧ c.2 < 3 := by
  fin_cases h <;> simp

lemma availableMoves_length_le (b : Board) : (availableMoves b).length ≤ 9 := by
  have := List.length_filter_le (fun c => decide (cell b c.1 c.2 = "")) cells9
  simpa [cells9] using this

/-- Placing a non-empty symbol on an available cell strictly decreases
the number of available moves: the measure of `_minimax`'s recursion. -/
lemma availableMoves_set_lt (b : Board) (c : Nat × Nat) (s : String)
    (hb : WF b) (hc : c ∈ availableMoves b) (hs : s ≠ "") :
    (availableMoves (setCell b c.1 c.2 s)).length < (availableMoves b).length := by
  rcases (mem_availableMoves b c).mp hc with ⟨hc9, hcell⟩
  unfold availableMoves
  apply filter_length_lt
  · intro a _ hpa
    rw [decide_eq_true_iff] at hpa
    rw [decide_eq_true_iff]
    by_cases hac : a = c
    · subst hac
      exact hcell
    · rw [cell_setCell_ne b c.1 c.2 a.1 a.2 s (by
        intro h
        apply hac
        apply Prod.ext <;> simp_all)] at hpa
      exact hpa
  · exact hc9
  · rw [decide_eq_true_iff]
    exact hcell
  · rw [decide_eq_false_iff_not]
    rcases cells9_coords c hc9 with ⟨h1, h2⟩
    rw [cell_setCell_self b c.1 c.2 s hb h1 h2]
    exact hs

lemma WF_three (b : Board) (hb : WF b) :
    ∃ x0 x1 x2 x3 x4 x5 x6 x7 x8 : String,
      b = [[x0, x1, x2], [x3, x4, x5], [x6, x7, x8]] := by
  obtain ⟨hlen, hrows⟩ := hb
  obtain ⟨r0, r1, r2, hb⟩ := List.length_eq_three.mp hlen
  subst hb
  obtain ⟨x0, x1, x2, h0⟩ := List.length_eq_three.mp (hrows r0 (by simp))
  obtain ⟨x3, x4, x5, h1⟩ := List.length_eq_three.mp (hrows r1 (by simp))
  obtain ⟨x6, x7, x8, h2⟩ := List.length_eq_three.mp (hrows r2 (by simp))
  subst h0
  subst h1
  subst h2
  exact ⟨x0, x1, x2, x3, x4, x5, x6, x7, x8, rfl⟩

/-- On a well-formed board, `_is_board_full` agrees with the emptiness
of the `available_moves` list. -/
lemma is_board_full_iff (b : Board) (hb : WF b) :
    is_board_full b = true ↔ availableMoves b = [] := by
  obtain ⟨x0, x1, x2, x3, x4, x5, x6, x7, x8, rfl⟩ := WF_three b hb
  simp only [is_board_full, availableMoves, cells9, cell, List.filter_eq_nil_iff]
  simp [List.all_cons, List.getD_eq_getElem?_getD]
  tauto

/-- Placing either game symbol (or clearing a cell) preserves the cell
alphabet. -/
lemma CellsOK_setCell (b : Board) (i j : Nat) (s : String)
    (hb : CellsOK b) (hs : s = "" ∨ s = "X" ∨ s = "O") :
    CellsOK (setCell b i j s) := by
  intro r hr
  unfold setCell at hr
  rcases List.mem_or_eq_of_mem_set hr with h | h
  · exact hb r h
  · subst h
    intro x hx
    rcases List.mem_or_eq_of_mem_set hx with h2 | h2
    · by_cases hi : i < b.length
      · refine hb (b.getD i []) ?_ x h2
        simp only [List.getD_eq_getElem?_getD, List.getElem?_eq_getElem hi]
        exact List.getElem_mem hi
      · have : b.getD i [] = [] := by
          simp [List.getD_eq_getElem?_getD, List.getElem?_eq_none (by omega : b.length ≤ i)]
        rw [this] at h2
        simp at h2
    · subst h2
      exact hs

/-! ### Unfolding equations for `_minimax` -/

lemma minimax_win (fuel : Nat) (b : Board) (d : Int) (m : Bool) (sym ps : String)
    (h : check_winner b = some sym) :
    minimax (fuel + 1) b d m sym ps = XInt.fin (10 - d) := by
  simp [minimax, h]

lemma minimax_lose (fuel : Nat) (b : Board) (d : Int) (m : Bool) (sym ps : String)
    (h1 : check_winner b ≠ some sym) (h2 : check_winner b = some ps) :
    minimax (fuel + 1) b d m sym ps = XInt.fin (d - 10) := by
  have hne : ps ≠ sym := by
    intro h
    exact h1 (h ▸ h2)
  simp [minimax, h1, h2, hne]

lemma minimax_full (fuel : Nat) (b : Board) (d : Int) (m : Bool) (sym ps : String)
    (h1 : check_winner b ≠ some sym) (h2 : check_winner b ≠ some ps)
    (h3 : is_board_full b = true) :
    minimax (fuel + 1) b d m sym ps = XInt.fin 0 := by
  simp [minimax, h1, h2, h3]

lemma minimax_max_eq (fuel : Nat) (b : Board) (d : Int) (sym ps : String)
    (h1 : check_winner b ≠ some sym) (h2 : check_winner b ≠ some ps)
    (h3 : is_board_full b = false) :
    minimax (fuel + 1) b d true sym ps
      = (availableMoves b).foldl (fun best c =>
          XInt.max (minimax fuel (setCell b c.1 c.2 sym) (d + 1) false sym ps) best)
          XInt.negInf := by
  have : minimax (fuel + 1) b d true sym ps
      = cells9.foldl (fun best c =>
          if cell b c.1 c.2 = "" then
            XInt.max (minimax fuel (setCell b c.1 c.2 sym) (d + 1) false sym ps) best
          else best) XInt.negInf := by
    simp [minimax, h1, h2, h3]
  rw [this]
  exact foldl_guard_eq_filter (fun c => cell b c.1 c.2 = "") _ cells9 XInt.negInf

lemma minimax_min_eq (fuel : Nat) (b : Board) (d : Int) (sym ps : String)
    (h1 : check_winner b ≠ some sym) (h2 : check_winner b ≠ some ps)
    (h3 : is_board_full b = false) :
    minimax (fuel + 1) b d false sym ps
      = (availableMoves b).foldl (fun best c =>
          XInt.min (minimax fuel (setCell b c.1 c.2 ps) (d + 1) true sym ps) best)
          XInt.posInf := by
  have : minimax (fuel + 1) b d false sym ps
      = cells9.foldl (fun best c =>
          if cell b c.1 c.2 = "" then
            XInt.min (minimax fuel (setCell b c.1 c.2 ps) (d + 1) true sym ps) best
          else best) XInt.posInf := by
    simp [minimax, h1, h2, h3]
  rw [this]
  exact foldl_guard_eq_filter (fun c => cell b c.1 c.2 = "") _ cells9 XInt.posInf

lemma foldl_comb_congr (comb : XInt → XInt → XInt) (f g : Nat × Nat → XInt) :
    ∀ (l : List (Nat × Nat)) (init : XInt), (∀ c ∈ l, f c = g c) →
      l.foldl (fun best c => comb (f c) best) init
        = l.foldl (fun best c => comb (g c) best) init := by
  intro l
  induction l with
  | nil => intro _ _; rfl
  | cons a t ih =>
    intro init h
    simp only [List.foldl_cons]
    rw [h a (List.mem_cons_self a t)]
    exact ih _ (fun c hc => h c (List.mem_cons_of_mem a hc))

/-! ### Value lemmas for `_minimax` -/

/-- With fuel exceeding the number of empty cells and non-empty symbols,
`_minimax` returns a finite score. -/
lemma minimax_fin : ∀ (fuel : Nat) (b : Board) (d : Int) (m : Bool) (sym ps : String),
    WF b → sym ≠ "" → ps ≠ "" → (availableMoves b).length < fuel →
    ∃ z : Int, minimax fuel b d m sym ps = XInt.fin z := by
  intro fuel
  induction fuel with
  | zero => intro b d m sym ps _ _ _ h; omega
  | succ fuel ih =>
    intro b d m sym ps hb hsym hps hcount
    by_cases hw1 : check_winner b = some sym
    · exact ⟨10 - d, minimax_win fuel b d m sym ps hw1⟩
    by_cases hw2 : check_winner b = some ps
    · exact ⟨d - 10, minimax_lose fuel b d m sym ps hw1 hw2⟩
    by_cases hf : is_board_full b = true
    · exact ⟨0, minimax_full fuel b d m sym ps hw1 hw2 hf⟩
    have hf2 : is_board_full b = false := by
      rw [Bool.not_eq_true] at hf
      exact hf
    have havail : availableMoves b ≠ [] := by
      intro h
      exact hf ((is_board_full_iff b hb).mpr h)
    have hchild : ∀ c ∈ availableMoves b, ∀ (s : String), s ≠ "" → ∀ (flag : Bool),
        ∃ z : Int, minimax fuel (setCell b c.1 c.2 s) (d + 1) flag sym ps = XInt.fin z := by
      intro c hc s hs flag
      apply ih _ _ _ sym ps (setCell_WF b c.1 c.2 s hb) hsym hps
      have hlt := availableMoves_set_lt b c s hb hc hs
      omega
    cases m with
    | true =>
      rw [minimax_max_eq fuel b d sym ps hw1 hw2 hf2]
      rcases maxfold_eq_init_or_mem
          (fun c => minimax fuel (setCell b c.1 c.2 sym) (d + 1) false sym ps)
          (availableMoves b) XInt.negInf with h | ⟨c, hc, h⟩
      · exfalso
        obtain ⟨c, hc⟩ := List.exists_mem_of_ne_nil _ havail
        obtain ⟨z, hz⟩ := hchild c hc sym hsym false
        have hge := maxfold_ge_elem
          (fun c => minimax fuel (setCell b c.1 c.2 sym) (d + 1) false sym ps)
          (availableMoves b) XInt.negInf c hc
        rw [h] at hge
        simp only at hge
        rw [hz] at hge
        exact XInt.not_fin_le_negInf z hge
      · obtain ⟨z, hz⟩ := hchild c hc sym hsym false
        refine ⟨z, ?_⟩
        rw [h]
        simpa using hz
    | false =>
      rw [minimax_min_eq fuel b d sym ps hw1 hw2 hf2]
      rcases minfold_eq_init_or_mem
          (fun c => minimax fuel (setCell b c.1 c.2 ps) (d + 1) true sym ps)
          (availableMoves b) XInt.posInf with h | ⟨c, hc, h⟩
      · exfalso
        obtain ⟨c, hc⟩ := List.exists_mem_of_ne_nil _ havail
        obtain ⟨z, hz⟩ := hchild c hc ps hps true
        have hge := minfold_le_elem
          (fun c => minimax fuel (setCell b c.1 c.2 ps) (d + 1) true sym ps)
          (availableMoves b) XInt.posInf c hc
        rw [h] at hge
        simp only at hge
        rw [hz] at hge
        simp [XInt.le, XInt.blt] at hge
      · obtain ⟨z, hz⟩ := hchild c hc ps hps true
        refine ⟨z, ?_⟩
        rw [h]
        simpa using hz

/-- Score upper bound: a search rooted at depth `d` with `d` plus the
number of empty cells at most 10 never reports more than `10 - d`. -/
lemma minimax_le_bound : ∀ (fuel : Nat) (b : Board) (d : Int) (m : Bool) (sym ps : String),
    WF b → sym ≠ "" → ps ≠ "" → d + (availableMoves b).length ≤ 10 →
    (minimax fuel b d m sym ps).le (XInt.fin (10 - d)) := by
  intro fuel
  induction fuel with
  | zero =>
    intro b d m sym ps _ _ _ _
    exact XInt.le_negInf_bot _
  | succ fuel ih =>
    intro b d m sym ps hb hsym hps hd
    have hdle : d ≤ 10 := by
      have : (0 : Int) ≤ (availableMoves b).length := by positivity
      omega
    by_cases hw1 : check_winner b = some sym
    · rw [minimax_win fuel b d m sym ps hw1]
      exact XInt.le_refl _
    by_cases hw2 : check_winner b = some ps
    · rw [minimax_lose fuel b d m sym ps hw1 hw2]
      rw [XInt.fin_le_fin_iff]
      omega
    by_cases hf : is_board_full b = true
    · rw [minimax_full fuel b d m sym ps hw1 hw2 hf]
      rw [XInt.fin_le_fin_iff]
      omega
    have hf2 : is_board_full b = false := by
      rw [Bool.not_eq_true] at hf
      exact hf
    have havail : availableMoves b ≠ [] := by
      intro h
      exact hf ((is_board_full_iff b hb).mpr h)
    have hchild : ∀ c ∈ availableMoves b, ∀ (s : String), s ≠ "" → ∀ (flag : Bool),
        (minimax fuel (setCell b c.1 c.2 s) (d + 1) flag sym ps).le (XInt.fin (10 - (d + 1))) := by
      intro c hc s hs flag
      apply ih _ _ _ sym ps (setCell_WF b c.1 c.2 s hb) hsym hps
      have hlt := availableMoves_set_lt b c s hb hc hs
      have h9 := availableMoves_length_le (setCell b c.1 c.2 s)
      omega
    have hstep : (XInt.fin (10 - (d + 1))).le (XInt.fin (10 - d)) := by
      rw [XInt.fin_le_fin_iff]
      omega
    cases m with
    | true =>
      rw [minimax_max_eq fuel b d sym ps hw1 hw2 hf2]
      apply maxfold_le
      · exact XInt.le_negInf_bot _
      · intro c hc
        exact XInt.le_trans (hchild c hc sym hsym false) hstep
    | false =>
      rw [minimax_min_eq fuel b d sym ps hw1 hw2 hf2]
      obtain ⟨c, hc⟩ := List.exists_mem_of_ne_nil _ havail
      have hle := minfold_le_elem
        (fun c => minimax fuel (setCell b c.1 c.2 ps) (d + 1) true sym ps)
        (availableMoves b) XInt.posInf c hc
      refine XInt.le_trans hle ?_
      simp only
      exact XInt.le_trans (hchild c hc ps hps true) hstep

/-- Any two sufficient fuels compute the same `_minimax` score: the
fuel argument is a modelling artifact, not part of the semantics. -/
lemma minimax_fuel_irrel : ∀ (n fuel1 fuel2 : Nat) (b : Board) (d : Int) (m : Bool)
    (sym ps : String), WF b → sym ≠ "" → ps ≠ "" → (availableMoves b).length = n →
    n < fuel1 → n < fuel2 →
    minimax fuel1 b d m sym ps = minimax fuel2 b d m sym ps := by
  intro n
  induction n using Nat.strong_induction_on with
  | _ n ih =>
    intro fuel1 fuel2 b d m sym ps hb hsym hps hn h1 h2
    cases fuel1 with
    | zero => omega
    | succ f1 =>
      cases fuel2 with
      | zero => omega
      | succ f2 =>
        by_cases hw1 : check_winner b = some sym
        · rw [minimax_win f1 b d m sym ps hw1, minimax_win f2 b d m sym ps hw1]
        by_cases hw2 : check_winner b = some ps
        · rw [minimax_lose f1 b d m sym ps hw1 hw2, minimax_lose f2 b d m sym ps hw1 hw2]
        by_cases hf : is_board_full b = true
        · rw [minimax_full f1 b d m sym ps hw1 hw2 hf, minimax_full f2 b d m sym ps hw1 hw2 hf]
        have hf2 : is_board_full b = false := by
          rw [Bool.not_eq_true] at hf
          exact hf
        have hchild : ∀ c ∈ availableMoves b, ∀ (s : String), s ≠ "" → ∀ (flag : Bool),
            minimax f1 (setCell b c.1 c.2 s) (d + 1) flag sym ps
              = minimax f2 (setCell b c.1 c.2 s) (d + 1) flag sym ps := by
          intro c hc s hs flag
          have hlt := availableMoves_set_lt b c s hb hc hs
          rw [hn] at hlt
          exact ih _ hlt f1 f2 _ _ _ _ _ (setCell_WF b c.1 c.2 s hb) hsym hps rfl
            (by omega) (by omega)
        cases m with
        | true =>
          rw [minimax_max_eq f1 b d sym ps hw1 hw2 hf2,
            minimax_max_eq f2 b d sym ps hw1 hw2 hf2]
          exact foldl_comb_congr XInt.max _ _ (availableMoves b) XInt.negInf
            (fun c hc => hchild c hc sym hsym false)
        | false =>
          rw [minimax_min_eq f1 b d sym ps hw1 hw2 hf2,
            minimax_min_eq f2 b d sym ps hw1 hw2 hf2]
          exact foldl_comb_congr XInt.min _ _ (availableMoves b) XInt.posInf
            (fun c hc => hchild c hc ps hps true)

lemma not_ge0_negInf : ¬ (XInt.fin 0).le XInt.negInf := by
  simp [XInt.le, XInt.blt]

lemma ge0_maxfold_iff (f : Nat × Nat → XInt) (l : List (Nat × Nat)) :
    (XInt.fin 0).le (l.foldl (fun best c => XInt.max (f c) best) XInt.negInf)
      ↔ ∃ c ∈ l, (XInt.fin 0).le (f c) := by
  constructor
  · intro h
    rcases maxfold_eq_init_or_mem f l XInt.negInf with heq | ⟨c, hc, heq⟩
    · rw [heq] at h
      exact absurd h not_ge0_negInf
    · rw [heq] at h
      exact ⟨c, hc, h⟩
  · rintro ⟨c, hc, h⟩
    exact XInt.le_trans h (maxfold_ge_elem f l XInt.negInf c hc)

lemma ge0_minfold_iff (f : Nat × Nat → XInt) (l : List (Nat × Nat)) :
    (XInt.fin 0).le (l.foldl (fun best c => XInt.min (f c) best) XInt.posInf)
      ↔ ∀ c ∈ l, (XInt.fin 0).le (f c) := by
  constructor
  · intro h c hc
    exact XInt.le_trans h (minfold_le_elem f l XInt.posInf c hc)
  · intro h
    exact minfold_ge f l XInt.posInf (XInt.fin 0) (XInt.le_posInf_top _) h

/-- The sign of the `_minimax` score does not depend on the root depth
or on the (sufficient) fuel: a position is non-negative for the AI at
one depth base exactly when it is at another. -/
lemma minimax_ge0_iff : ∀ (n fuel1 fuel2 : Nat) (b : Board) (d1 d2 : Int) (m : Bool)
    (sym ps : String), WF b → sym ≠ "" → ps ≠ "" → (availableMoves b).length = n →
    n < fuel1 → n < fuel2 → d1 + n ≤ 9 → d2 + n ≤ 9 →
    ((XInt.fin 0).le (minimax fuel1 b d1 m sym ps)
      ↔ (XInt.fin 0).le (minimax fuel2 b d2 m sym ps)) := by
  intro n
  induction n using Nat.strong_induction_on with
  | _ n ih =>
    intro fuel1 fuel2 b d1 d2 m sym ps hb hsym hps hn h1 h2 hd1 hd2
    have hn0 : (0 : Int) ≤ (n : Int) := by positivity
    cases fuel1 with
    | zero => omega
    | succ f1 =>
      cases fuel2 with
      | zero => omega
      | succ f2 =>
        by_cases hw1 : check_winner b = some sym
        · rw [minimax_win f1 b d1 m sym ps hw1, minimax_win f2 b d2 m sym ps hw1]
          rw [XInt.fin_le_fin_iff, XInt.fin_le_fin_iff]
          omega
        by_cases hw2 : check_winner b = some ps
        · rw [minimax_lose f1 b d1 m sym ps hw1 hw2, minimax_lose f2 b d2 m sym ps hw1 hw2]
          rw [XInt.fin_le_fin_iff, XInt.fin_le_fin_iff]
          omega
        by_cases hf : is_board_full b = true
        · rw [minimax_full f1 b d1 m sym ps hw1 hw2 hf, minimax_full f2 b d2 m sym ps hw1 hw2 hf]
        have hf2 : is_board_full b = false := by
          rw [Bool.not_eq_true] at hf
          exact hf
        have hchild : ∀ c ∈ availableMoves b, ∀ (s : String), s ≠ "" → ∀ (flag : Bool),
            ((XInt.fin 0).le (minimax f1 (setCell b c.1 c.2 s) (d1 + 1) flag sym ps)
              ↔ (XInt.fin 0).le (minimax f2 (setCell b c.1 c.2 s) (d2 + 1) flag sym ps)) := by
          intro c hc s hs flag
          have hlt := availableMoves_set_lt b c s hb hc hs
          rw [hn] at hlt
          exact ih _ hlt f1 f2 _ _ _ _ _ _ (setCell_WF b c.1 c.2 s hb) hsym hps rfl
            (by omega) (by omega) (by omega) (by omega)
        cases m with
        | true =>
          rw [minimax_max_eq f1 b d1 sym ps hw1 hw2 hf2,
            minimax_max_eq f2 b d2 sym ps hw1 hw2 hf2]
          rw [ge0_maxfold_iff, ge0_maxfold_iff]
          constructor
          · rintro ⟨c, hc, h⟩
            exact ⟨c, hc, (hchild c hc sym hsym false).mp h⟩
          · rintro ⟨c, hc, h⟩
            exact ⟨c, hc, (hchild c hc sym hsym false).mpr h⟩
        | false =>
          rw [minimax_min_eq f1 b d1 sym ps hw1 hw2 hf2,
            minimax_min_eq f2 b d2 sym ps hw1 hw2 hf2]
          rw [ge0_minfold_iff, ge0_minfold_iff]
          constructor
          · intro h c hc
            exact (hchild c hc ps hps true).mp (h c hc)
          · intro h c hc
            exact (hchild c hc ps hps true).mpr (h c hc)

lemma lineVal_eq_some {a b c w : String} (h : lineVal a b c = some w) :
    w = a ∧ a ≠ "" := by
  unfold lineVal at h
  split at h
  · next hcond =>
    cases h
    exact ⟨rfl, hcond.2.2⟩
  · cases h

lemma getD_mem_or_default {α : Type} (l : List α) (i : Nat) (d : α) :
    l.getD i d ∈ l ∨ l.getD i d = d := by
  by_cases h : i < l.length
  · left
    simp only [List.getD_eq_getElem?_getD, List.getElem?_eq_getElem h]
    exact List.getElem_mem h
  · right
    simp [List.getD_eq_getElem?_getD, List.getElem?_eq_none (by omega : l.length ≤ i)]

lemma cell_alphabet (b : Board) (hb : CellsOK b) (i j : Nat) :
    cell b i j = "" ∨ cell b i j = "X" ∨ cell b i j = "O" := by
  unfold cell
  rcases getD_mem_or_default b i [] with hrow | hrow
  · rcases getD_mem_or_default (b.getD i []) j "" with hc | hc
    · exact hb _ hrow _ hc
    · exact Or.inl hc
  · rw [hrow]
    left
    rfl

/-- On a board over the game alphabet, `_check_winner` reports nothing
or one of the two symbols. -/
lemma check_winner_cases (b : Board) (hb : CellsOK b) :
    check_winner b = none ∨ check_winner b = some "X" ∨ check_winner b = some "O" := by
  have hline : ∀ (i j i2 j2 i3 j3 : Nat) (w : String),
      lineVal (cell b i j) (cell b i2 j2) (cell b i3 j3) = some w →
      w = "X" ∨ w = "O" := by
    intro i j i2 j2 i3 j3 w h
    obtain ⟨hw, hne⟩ := lineVal_eq_some h
    subst hw
    rcases cell_alphabet b hb i j with h | h | h
    · exact absurd h hne
    · exact Or.inl h
    · exact Or.inr h
  unfold check_winner
  split
  · next w hfind =>
    obtain ⟨row, hrow, hval⟩ := List.exists_of_findSome?_eq_some hfind
    obtain ⟨hw, hne⟩ := lineVal_eq_some hval
    subst hw
    rcases getD_mem_or_default row 0 "" with hc | hc
    · rcases hb row hrow _ hc with h | h | h
      · exact absurd h hne
      · right; left; rw [h]
      · right; right; rw [h]
    · exact absurd hc hne
  · split
    · next w hfind =>
      obtain ⟨col, _, hval⟩ := List.exists_of_findSome?_eq_some hfind
      rcases hline 0 col 1 col 2 col w hval with h | h
      · right; left; rw [h]
      · right; right; rw [h]
    · split
      · next w hval =>
        rcases hline 0 0 1 1 2 2 w hval with h | h
        · right; left; rw [h]
        · right; right; rw [h]
      · cases hdiag : lineVal (cell b 0 2) (cell b 1 1) (cell b 2 0) with
        | none => exact Or.inl rfl
        | some w =>
          rcases hline 0 2 1 1 2 0 w hdiag with h | h
          · right; left; rw [h]
          · right; right; rw [h]

/-- The cheap and-or search agrees with non-negativity of the
`_minimax` score, at any root depth `d` with `d` plus the number of
empty cells at most 9 and any sufficient fuels. -/
lemma noLoseSearch_iff_ge0 : ∀ (n fuel fm : Nat) (b : Board) (aiTurn : Bool) (d : Int),
    WF b → CellsOK b → (availableMoves b).length = n → n < fuel → n < fm → d + n ≤ 9 →
    (noLoseSearch fuel b aiTurn = true
      ↔ (XInt.fin 0).le (minimax fm b d aiTurn "O" "X")) := by
  intro n
  induction n using Nat.strong_induction_on with
  | _ n ih =>
    intro fuel fm b aiTurn d hb hok hn h1 h2 hd
    have hn0 : (0 : Int) ≤ (n : Int) := by positivity
    cases fuel with
    | zero => omega
    | succ f =>
      cases fm with
      | zero => omega
      | succ g =>
        rcases check_winner_cases b hok with hw | hw | hw
        · by_cases hf : is_board_full b = true
          · rw [minimax_full g b d aiTurn "O" "X" (by simp [hw]) (by simp [hw]) hf]
            simp [noLoseSearch, hw, hf, XInt.le, XInt.blt]
          · have hf2 : is_board_full b = false := by
              rw [Bool.not_eq_true] at hf
              exact hf
            have hchild : ∀ c ∈ availableMoves b, ∀ (s : String),
                (s = "" ∨ s = "X" ∨ s = "O") → s ≠ "" → ∀ (flag : Bool),
                (noLoseSearch f (setCell b c.1 c.2 s) flag = true
                  ↔ (XInt.fin 0).le (minimax g (setCell b c.1 c.2 s) (d + 1) flag "O" "X")) := by
              intro c hc s hsok hs flag
              have hlt := availableMoves_set_lt b c s hb hc hs
              rw [hn] at hlt
              exact ih _ hlt f g _ _ _ (setCell_WF b c.1 c.2 s hb)
                (CellsOK_setCell b c.1 c.2 s hok hsok) rfl (by omega) (by omega) (by omega)
            cases aiTurn with
            | true =>
              rw [minimax_max_eq g b d "O" "X" (by simp [hw]) (by simp [hw]) hf2]
              rw [ge0_maxfold_iff]
              have hunfold : noLoseSearch (f + 1) b true
                  = (availableMoves b).any (fun c => noLoseSearch f (setCell b c.1 c.2 "O") false) := by
                simp [noLoseSearch, hw, hf2]
              rw [hunfold, List.any_eq_true]
              constructor
              · rintro ⟨c, hc, h⟩
                exact ⟨c, hc, (hchild c hc "O" (by simp) (by simp) false).mp h⟩
              · rintro ⟨c, hc, h⟩
                exact ⟨c, hc, (hchild c hc "O" (by simp) (by simp) false).mpr h⟩
            | false =>
              rw [minimax_min_eq g b d "O" "X" (by simp [hw]) (by simp [hw]) hf2]
              rw [ge0_minfold_iff]
              have hunfold : noLoseSearch (f + 1) b false
                  = (availableMoves b).all (fun c => noLoseSearch f (setCell b c.1 c.2 "X") true) := by
                simp [noLoseSearch, hw, hf2]
              rw [hunfold, List.all_eq_true]
              constructor
              · intro h c hc
                exact (hchild c hc "X" (by simp) (by simp) true).mp (h c hc)
              · intro h c hc
                exact (hchild c hc "X" (by simp) (by simp) true).mpr (h c hc)
        · rw [minimax_lose g b d aiTurn "O" "X" (by simp [hw]) hw]
          have : noLoseSearch (f + 1) b aiTurn = false := by
            simp [noLoseSearch, hw]
          rw [this]
          rw [XInt.fin_le_fin_iff]
          constructor
          · intro h
            cases h
          · intro h
            omega
        · rw [minimax_win g b d aiTurn "O" "X" hw]
          have : noLoseSearch (f + 1) b aiTurn = true := by
            simp [noLoseSearch, hw]
          rw [this]
          rw [XInt.fin_le_fin_iff]
          constructor
          · intro _
            omega
          · intro _
            rfl

lemma XInt.blt_trans {x y z : XInt} (h1 : x.blt y = true) (h2 : y.blt z = true) :
    x.blt z = true := by
  cases x <;> cases y <;> cases z <;>
    simp_all [XInt.blt] <;> omega

lemma firstMaxCell_cons (f : Nat × Nat → XInt) (c : Nat × Nat) (rest : List (Nat × Nat)) :
    firstMaxCell f (c :: rest)
      = match firstMaxCell f rest with
        | none => some c
        | some m => if (f c).blt (f m) then some m else some c := rfl

/-- The source's best-score fold equals the specification's
first-maximum selection, for an arbitrary starting accumulator. -/
lemma bestfold_eq (f : Nat × Nat → XInt) :
    ∀ (l : List (Nat × Nat)) (acc : XInt × (Nat × Nat)),
      l.foldl (fun acc c => if acc.1.blt (f c) then (f c, c) else acc) acc
        = pickStep f acc (firstMaxCell f l) := by
  intro l
  induction l with
  | nil => intro acc; rfl
  | cons c rest ih =>
    intro acc
    rw [List.foldl_cons]
    rw [ih (if acc.1.blt (f c) then (f c, c) else acc)]
    rw [firstMaxCell_cons]
    cases hrest : firstMaxCell f rest with
    | none =>
      simp only [pickStep]
    | some m =>
      show pickStep f (if acc.1.blt (f c) then (f c, c) else acc) (some m)
        = pickStep f acc (if (f c).blt (f m) then some m else some c)
      by_cases hcm : (f c).blt (f m) = true
      · rw [if_pos hcm]
        simp only [pickStep]
        by_cases hac : acc.1.blt (f c) = true
        · rw [if_pos hac]
          simp only
          rw [if_pos (XInt.blt_trans hac hcm)]
          rw [if_pos hcm]
        · rw [if_neg hac]
      · rw [if_neg hcm]
        simp only [pickStep]
        rw [Bool.not_eq_true] at hcm
        by_cases hac : acc.1.blt (f c) = true
        · simp [hac, hcm]
        · rw [Bool.not_eq_true] at hac
          have hle : (f m).le acc.1 :=
            XInt.le_trans (XInt.le_of_blt_eq_false hcm) (XInt.le_of_blt_eq_false hac)
          have hblt : acc.1.blt (f m) = false := XInt.blt_eq_false_of_le hle
          simp [hblt, hac]

lemma firstMaxCell_ne_nil (f : Nat × Nat → XInt) (l : List (Nat × Nat)) (h : l ≠ []) :
    ∃ k, firstMaxCell f l = some k := by
  cases l with
  | nil => exact absurd rfl h
  | cons c rest =>
    rw [firstMaxCell_cons]
    cases hrest : firstMaxCell f rest with
    | none => exact ⟨c, rfl⟩
    | some m =>
      by_cases hcm : (f c).blt (f m) = true
      · exact ⟨m, by simp [hcm]⟩
      · exact ⟨c, by simp [hcm]⟩

lemma firstMaxCell_mem (f : Nat × Nat → XInt) :
    ∀ (l : List (Nat × Nat)) (k : Nat × Nat), firstMaxCell f l = some k → k ∈ l := by
  intro l
  induction l with
  | nil => intro k h; cases h
  | cons c rest ih =>
    intro k h
    rw [firstMaxCell_cons] at h
    cases hrest : firstMaxCell f rest with
    | none =>
      rw [hrest] at h
      cases h
      exact List.mem_cons_self c rest
    | some m =>
      rw [hrest] at h
      have h2 : (if (f c).blt (f m) = true then some m else some c) = some k := h
      by_cases hcm : (f c).blt (f m) = true
      · rw [if_pos hcm] at h2
        cases h2
        exact List.mem_cons_of_mem c (ih k hrest)
      · rw [if_neg hcm] at h2
        cases h2
        exact List.mem_cons_self c rest

lemma firstMaxCell_none_iff (f : Nat × Nat → XInt) (l : List (Nat × Nat)) :
    firstMaxCell f l = none ↔ l = [] := by
  cases l with
  | nil => simp [firstMaxCell]
  | cons c rest =>
    constructor
    · intro h
      exfalso
      obtain ⟨k, hk⟩ := firstMaxCell_ne_nil f (c :: rest) (by simp)
      rw [hk] at h
      cases h
    · intro h
      cases h

lemma firstMaxCell_is_max (f : Nat × Nat → XInt) :
    ∀ (l : List (Nat × Nat)) (k : Nat × Nat), firstMaxCell f l = some k →
      ∀ c ∈ l, (f c).le (f k) := by
  intro l
  induction l with
  | nil => intro k h; cases h
  | cons c rest ih =>
    intro k h e he
    rw [firstMaxCell_cons] at h
    cases hrest : firstMaxCell f rest with
    | none =>
      rw [hrest] at h
      cases h
      have : rest = [] := (firstMaxCell_none_iff f rest).mp hrest
      subst this
      rcases List.mem_cons.mp he with h | h
      · subst h
        exact XInt.le_refl _
      · simp at h
    | some m =>
      rw [hrest] at h
      have h2 : (if (f c).blt (f m) = true then some m else some c) = some k := h
      by_cases hcm : (f c).blt (f m) = true
      · rw [if_pos hcm] at h2
        cases h2
        rcases List.mem_cons.mp he with h | h
        · subst h
          exact XInt.le_of_lt hcm
        · exact ih k hrest e h
      · rw [if_neg hcm] at h2
        cases h2
        rw [Bool.not_eq_true] at hcm
        rcases List.mem_cons.mp he with h | h
        · subst h
          exact XInt.le_refl _
        · exact XInt.le_trans (ih m hrest e h) (XInt.le_of_blt_eq_false hcm)

/-- `_get_minimax_move` is exactly the first-encountered maximal-score
empty cell of the row-major scan. -/
lemma get_minimax_move_spec (b : Board) (sym ps : String)
    (hb : WF b) (hsym : sym ≠ "") (hps : ps ≠ "") (hne : availableMoves b ≠ []) :
    some (get_minimax_move b sym ps)
      = firstMaxCell (cellScore b sym ps) (availableMoves b) := by
  obtain ⟨k, hk⟩ := firstMaxCell_ne_nil (cellScore b sym ps) (availableMoves b) hne
  have hmem := firstMaxCell_mem (cellScore b sym ps) (availableMoves b) k hk
  obtain ⟨z, hz⟩ : ∃ z : Int, cellScore b sym ps k = XInt.fin z := by
    unfold cellScore
    apply minimax_fin 9 _ 0 false sym ps (setCell_WF b k.1 k.2 sym hb) hsym hps
    have hlt := availableMoves_set_lt b k sym hb hmem hsym
    have h9 := availableMoves_length_le b
    omega
  have h1 : get_minimax_move b sym ps
      = ((availableMoves b).foldl (fun acc c =>
          if acc.1.blt (cellScore b sym ps c) then (cellScore b sym ps c, c) else acc)
          (XInt.negInf, (0, 0))).2 := by
    unfold get_minimax_move
    rw [foldl_guard_eq_filter (fun c => cell b c.1 c.2 = "")
      (fun acc c => if acc.1.blt (cellScore b sym ps c) then (cellScore b sym ps c, c) else acc)
      cells9 (XInt.negInf, (0, 0))]
    rfl
  rw [h1, bestfold_eq (cellScore b sym ps) (availableMoves b) (XInt.negInf, (0, 0)), hk]
  simp only [pickStep, hz]
  rw [if_pos (by simp [XInt.blt])]

/-- Soundness of the Hard tier: if the game value of the position (the
sign of its `_minimax` score) is not losing for the AI, then the playout
in which the AI selects every one of its own moves with
`_get_minimax_move` never ends in an `'X'` win, whatever the opponent
plays. -/
lemma aiSafe_sound : ∀ (n : Nat) (b : Board) (aiTurn : Bool) (fuel : Nat),
    WF b → CellsOK b → (availableMoves b).length = n → n < fuel →
    (XInt.fin 0).le (minimax (n + 1) b (9 - (n : Int)) aiTurn "O" "X") →
    aiSafe fuel b aiTurn = true := by
  intro n
  induction n using Nat.strong_induction_on with
  | _ n ih =>
    intro b aiTurn fuel hb hok hn hfuel hge
    have hn0 : (0 : Int) ≤ (n : Int) := by positivity
    have h9 := availableMoves_length_le b
    rw [hn] at h9
    cases fuel with
    | zero => omega
    | succ f =>
      rcases check_winner_cases b hok with hw | hw | hw
      · by_cases hfull : is_board_full b = true
        · simp [aiSafe, hw, hfull]
        · have hf2 : is_board_full b = false := by
            rw [Bool.not_eq_true] at hfull
            exact hfull
          have havail : availableMoves b ≠ [] := by
            intro h
            exact hfull ((is_board_full_iff b hb).mpr h)
          have hchild_transfer : ∀ c ∈ availableMoves b, ∀ (s : String),
              (s = "" ∨ s = "X" ∨ s = "O") → s ≠ "" → ∀ (flag : Bool)
              (f1 f2 : Nat) (d1 d2 : Int),
              (availableMoves (setCell b c.1 c.2 s)).length < f1 →
              (availableMoves (setCell b c.1 c.2 s)).length < f2 →
              d1 + (availableMoves (setCell b c.1 c.2 s)).length ≤ 9 →
              d2 + (availableMoves (setCell b c.1 c.2 s)).length ≤ 9 →
              ((XInt.fin 0).le (minimax f1 (setCell b c.1 c.2 s) d1 flag "O" "X")
                ↔ (XInt.fin 0).le (minimax f2 (setCell b c.1 c.2 s) d2 flag "O" "X")) := by
            intro c hc s _ hs flag f1 f2 d1 d2 hf1 hf2c hd1 hd2
            exact minimax_ge0_iff _ f1 f2 _ d1 d2 flag "O" "X"
              (setCell_WF b c.1 c.2 s hb) (by simp) (by simp) rfl hf1 hf2c hd1 hd2
          cases aiTurn with
          | true =>
            have hm := get_minimax_move_spec b "O" "X" hb (by simp) (by simp) havail
            set m := get_minimax_move b "O" "X" with hmdef
            have hmem : m ∈ availableMoves b :=
              firstMaxCell_mem (cellScore b "O" "X") (availableMoves b) m hm.symm
            have hmax := firstMaxCell_is_max (cellScore b "O" "X") (availableMoves b) m hm.symm
            have hstep : aiSafe (f + 1) b true = aiSafe f (setCell b m.1 m.2 "O") false := by
              simp [aiSafe, hw, hf2, hmdef]
            rw [hstep]
            rw [minimax_max_eq n b _ "O" "X" (by simp [hw]) (by simp [hw]) hf2] at hge
            rw [ge0_maxfold_iff] at hge
            obtain ⟨c0, hc0, hge0⟩ := hge
            have hdec : ∀ c, c ∈ availableMoves b →
                (availableMoves (setCell b c.1 c.2 "O")).length < n := by
              intro c hc
              have := availableMoves_set_lt b c "O" hb hc (by simp)
              omega
            have hc0score : (XInt.fin 0).le (cellScore b "O" "X" c0) := by
              unfold cellScore
              refine (hchild_transfer c0 hc0 "O" (by simp) (by simp) false n 9
                (9 - (n : Int) + 1) 0 (hdec c0 hc0) (by have := hdec c0 hc0; omega)
                (by have := hdec c0 hc0; omega) (by have := hdec c0 hc0; omega)).mp hge0
            have hmscore : (XInt.fin 0).le (cellScore b "O" "X" m) :=
              XInt.le_trans hc0score (hmax c0 hc0)
            have hm_n : (availableMoves (setCell b m.1 m.2 "O")).length < n := hdec m hmem
            set nm := (availableMoves (setCell b m.1 m.2 "O")).length with hnm
            have hcanon : (XInt.fin 0).le
                (minimax (nm + 1) (setCell b m.1 m.2 "O") (9 - (nm : Int)) false "O" "X") := by
              refine (hchild_transfer m hmem "O" (by simp) (by simp) false 9 (nm + 1)
                0 (9 - (nm : Int)) (by omega) (by omega) (by omega) (by omega)).mp ?_
              exact hmscore
            exact ih nm hm_n (setCell b m.1 m.2 "O") false f
              (setCell_WF b m.1 m.2 "O" hb)
              (CellsOK_setCell b m.1 m.2 "O" hok (by simp)) rfl (by omega) hcanon
          | false =>
            have hstep : aiSafe (f + 1) b false
                = (availableMoves b).all (fun c => aiSafe f (setCell b c.1 c.2 "X") true) := by
              simp [aiSafe, hw, hf2]
            rw [hstep, List.all_eq_true]
            intro c hc
            rw [minimax_min_eq n b _ "O" "X" (by simp [hw]) (by simp [hw]) hf2] at hge
            rw [ge0_minfold_iff] at hge
            have hgec := hge c hc
            have hdec : (availableMoves (setCell b c.1 c.2 "X")).length < n := by
              have := availableMoves_set_lt b c "X" hb hc (by simp)
              omega
            set nc := (availableMoves (setCell b c.1 c.2 "X")).length with hnc
            have hcanon : (XInt.fin 0).le
                (minimax (nc + 1) (setCell b c.1 c.2 "X") (9 - (nc : Int)) true "O" "X") := by
              refine (hchild_transfer c hc "X" (by simp) (by simp) true n (nc + 1)
                (9 - (n : Int) + 1) (9 - (nc : Int)) (by omega) (by omega) (by omega)
                (by omega)).mp hgec
            exact ih nc hdec (setCell b c.1 c.2 "X") true f
              (setCell_WF b c.1 c.2 "X" hb)
              (CellsOK_setCell b c.1 c.2 "X" hok (by simp)) rfl (by omega) hcanon
      · exfalso
        rw [minimax_lose n b _ aiTurn "O" "X" (by simp [hw]) hw] at hge
        rw [XInt.fin_le_fin_iff] at hge
        omega
      · simp [aiSafe, hw]


/-- C1 — evaluating the code on a full board: every difficulty tier of
`get_move` returns the default coordinate `(0, 0)` instead of failing
with a NoAvailableMove error, contrary to the specification's error
design (the specification itself calls this fallback a defect). -/
theorem get_move_full_board_returns_default :
    is_board_full fullBoard = true
    ∧ (∀ (r : Nat) (ps : String), AI.get_move (AI.init .easy) fullBoard r ps = (0, 0))
    ∧ (∀ (r : Nat) (ps : String), AI.get_move (AI.init .medium) fullBoard r ps = (0, 0))
    ∧ (∀ (r : Nat) (ps : String), AI.get_move (AI.init .hard) fullBoard r ps = (0, 0)) := by
  refine ⟨by decide, fun r ps => rfl, fun r ps => rfl, fun r ps => rfl⟩

/-- C10 — the AI's own symbol is the fixed constant `'O'` whatever
difficulty is chosen at construction, and `get_move` without an explicit
`player_symbol` treats `'X'` as the opponent: the two symbols are not
injectable at this interface. -/
theorem ai_symbol_is_fixed_O :
    (∀ d : Difficulty, (AI.init d).symbol = "O")
    ∧ (∀ (ai : AI) (b : Board) (r : Nat), ai.get_move_default b r = ai.get_move b r "X") := by
  exact ⟨fun d => rfl, fun ai b r => rfl⟩


/-- C7 — `_check_winner` equals the specification's fixed-priority scan
of the 8 lines {row0, row1, row2, col0, col1, col2, main diagonal,
anti-diagonal}: a line wins iff its three cells hold the same non-empty
symbol, the first winning line's symbol (in that scan order) is
returned, and nothing is returned when no line is complete. -/
theorem check_winner_eq_spec (b : Board) (hb : WF b) :
    check_winner b = findWinnerSpec b := by
  obtain ⟨x0, x1, x2, x3, x4, x5, x6, x7, x8, rfl⟩ := WF_three b hb
  unfold check_winner findWinnerSpec linesSpec
  simp only [List.findSome?_cons, List.findSome?_nil, cell,
    List.getD_eq_getElem?_getD, List.getElem?_cons_zero, List.getElem?_cons_succ,
    Option.getD_some]
  cases h0 : lineVal x0 x1 x2 with
  | some w => rfl
  | none =>
  cases h1 : lineVal x3 x4 x5 with
  | some w => rfl
  | none =>
  cases h2 : lineVal x6 x7 x8 with
  | some w => rfl
  | none =>
  cases h3 : lineVal x0 x3 x6 with
  | some w => rfl
  | none =>
  cases h4 : lineVal x1 x4 x7 with
  | some w => rfl
  | none =>
  cases h5 : lineVal x2 x5 x8 with
  | some w => rfl
  | none =>
  cases h6 : lineVal x0 x4 x8 with
  | some w => rfl
  | none =>
  cases lineVal x2 x4 x6 <;> rfl

/-- Witness for C7 at a concrete board with a main-diagonal win. -/
theorem check_winner_eq_spec_witness :
    WF [["X", "O", ""], ["O", "X", ""], ["", "", "X"]]
    ∧ check_winner [["X", "O", ""], ["O", "X", ""], ["", "", "X"]]
      = findWinnerSpec [["X", "O", ""], ["O", "X", ""], ["", "", "X"]] :=
  ⟨by decide, check_winner_eq_spec _ (by decide)⟩

/-- C9 — termination of the minimax search: a 3x3 board has at most 9
available moves, every hypothetical placement of a non-empty symbol on
an available cell strictly decreases the number of available moves, and
consequently any fuel beyond the number of empty cells (in particular
the bound 10 from the 9-cell board) computes the same, total, score
function. -/
theorem minimax_search_terminates (b : Board) (hb : WF b) :
    (availableMoves b).length ≤ 9
    ∧ (∀ (c : Nat × Nat) (s : String), c ∈ availableMoves b → s ≠ "" →
        (availableMoves (setCell b c.1 c.2 s)).length < (availableMoves b).length)
    ∧ (∀ (fuel : Nat) (d : Int) (m : Bool) (sym ps : String),
        sym ≠ "" → ps ≠ "" → (availableMoves b).length < fuel →
        minimax fuel b d m sym ps = minimax 10 b d m sym ps) := by
  refine ⟨availableMoves_length_le b, ?_, ?_⟩
  · intro c s hc hs
    exact availableMoves_set_lt b c s hb hc hs
  · intro fuel d m sym ps hsym hps hfuel
    have h9 := availableMoves_length_le b
    exact minimax_fuel_irrel ((availableMoves b).length) fuel 10 b d m sym ps
      hb hsym hps rfl hfuel (by omega)

/-- Witness for C9 at the empty board. -/
theorem minimax_search_terminates_witness :
    WF emptyBoard
    ∧ ((availableMoves emptyBoard).length ≤ 9
      ∧ (∀ (c : Nat × Nat) (s : String), c ∈ availableMoves emptyBoard → s ≠ "" →
          (availableMoves (setCell emptyBoard c.1 c.2 s)).length
            < (availableMoves emptyBoard).length)
      ∧ (∀ (fuel : Nat) (d : Int) (m : Bool) (sym ps : String),
          sym ≠ "" → ps ≠ "" → (availableMoves emptyBoard).length < fuel →
          minimax fuel emptyBoard d m sym ps = minimax 10 emptyBoard d m sym ps)) :=
  ⟨by decide, minimax_search_terminates emptyBoard (by decide)⟩

/-- C4 — `_get_minimax_move` returns exactly the first cell in row-major
scan order among the empty cells whose minimax score (placing the AI
symbol, opponent to move at depth 0) is maximal; ties go to the
first-encountered cell because the best score is replaced only on
strict improvement. -/
theorem get_minimax_move_first_of_max (b : Board) (sym ps : String)
    (hb : WF b) (hsym : sym ≠ "") (hps : ps ≠ "") (hne : availableMoves b ≠ []) :
    some (get_minimax_move b sym ps)
      = firstMaxCell (cellScore b sym ps) (availableMoves b) :=
  get_minimax_move_spec b sym ps hb hsym hps hne

/-- Witness for C4 at a concrete board where the AI can win at `(0,2)`. -/
theorem get_minimax_move_first_of_max_witness :
    WF [["O", "O", ""], ["X", "X", ""], ["", "", ""]]
    ∧ "O" ≠ "" ∧ "X" ≠ ""
    ∧ availableMoves [["O", "O", ""], ["X", "X", ""], ["", "", ""]] ≠ []
    ∧ some (get_minimax_move [["O", "O", ""], ["X", "X", ""], ["", "", ""]] "O" "X")
        = firstMaxCell (cellScore [["O", "O", ""], ["X", "X", ""], ["", "", ""]] "O" "X")
            (availableMoves [["O", "O", ""], ["X", "X", ""], ["", "", ""]]) :=
  ⟨by decide, by decide, by decide, by decide,
    get_minimax_move_first_of_max _ "O" "X" (by decide) (by decide) (by decide) (by decide)⟩

/-- An opponent-to-move search at depth 0 on a board that the AI has
not already won scores at most 9: one less than an immediate win. -/
lemma minimax_no_win_le_nine (b2 : Board) (ps : String)
    (hb2 : WF b2) (hps : ps ≠ "") (hw : check_winner b2 ≠ some "O") :
    (minimax 9 b2 0 false "O" ps).le (XInt.fin 9) := by
  by_cases hw2 : check_winner b2 = some ps
  · rw [minimax_lose 8 b2 0 false "O" ps hw hw2]
    rw [XInt.fin_le_fin_iff]
    omega
  by_cases hf : is_board_full b2 = true
  · rw [minimax_full 8 b2 0 false "O" ps hw hw2 hf]
    rw [XInt.fin_le_fin_iff]
    omega
  have hf2 : is_board_full b2 = false := by
    rw [Bool.not_eq_true] at hf
    exact hf
  have havail : availableMoves b2 ≠ [] := by
    intro h
    exact hf ((is_board_full_iff b2 hb2).mpr h)
  rw [minimax_min_eq 8 b2 0 "O" ps hw hw2 hf2]
  obtain ⟨e, he⟩ := List.exists_mem_of_ne_nil _ havail
  refine XInt.le_trans (minfold_le_elem _ (availableMoves b2) XInt.posInf e he) ?_
  have hbound := minimax_le_bound 8 (setCell b2 e.1 e.2 ps) 1 true "O" ps
    (setCell_WF b2 e.1 e.2 ps hb2) (by simp) hps
    (by have := availableMoves_length_le (setCell b2 e.1 e.2 ps); omega)
  refine XInt.le_trans hbound ?_
  rw [XInt.fin_le_fin_iff]
  omega

/-- C5 — when the AI (symbol `'O'`) has an immediately winning empty
cell and no line is complete yet, Hard-tier `_get_minimax_move` returns
a cell whose occupation completes an AI line. -/
theorem hard_takes_immediate_win (b : Board) (ps : String)
    (hb : WF b) (hps : ps ≠ "") (hw : check_winner b = none)
    (hex : ∃ c ∈ availableMoves b, check_winner (setCell b c.1 c.2 "O") = some "O") :
    check_winner
        (setCell b (get_minimax_move b "O" ps).1 (get_minimax_move b "O" ps).2 "O")
      = some "O" := by
  obtain ⟨c0, hc0, hwin0⟩ := hex
  have havail : availableMoves b ≠ [] := List.ne_nil_of_mem hc0
  have hm := get_minimax_move_spec b "O" ps hb (by simp) hps havail
  set m := get_minimax_move b "O" ps with hmdef
  have hmem : m ∈ availableMoves b :=
    firstMaxCell_mem (cellScore b "O" ps) (availableMoves b) m hm.symm
  have hmax := firstMaxCell_is_max (cellScore b "O" ps) (availableMoves b) m hm.symm
  have hscore0 : cellScore b "O" ps c0 = XInt.fin 10 := by
    unfold cellScore
    rw [minimax_win 8 _ 0 false "O" ps hwin0]
    norm_num
  by_contra hcon
  have hbound : (cellScore b "O" ps m).le (XInt.fin 9) := by
    unfold cellScore
    exact minimax_no_win_le_nine (setCell b m.1 m.2 "O") ps
      (setCell_WF b m.1 m.2 "O" hb) hps (by simpa using hcon)
  have hge : (cellScore b "O" ps c0).le (cellScore b "O" ps m) := hmax c0 hc0
  rw [hscore0] at hge
  have : (XInt.fin 10).le (XInt.fin 9) := XInt.le_trans hge hbound
  rw [XInt.fin_le_fin_iff] at this
  omega

/-- Witness for C5: the AI completes its top row instead of blocking. -/
theorem hard_takes_immediate_win_witness :
    WF [["O", "O", ""], ["X", "X", ""], ["", "", ""]]
    ∧ "X" ≠ ""
    ∧ check_winner [["O", "O", ""], ["X", "X", ""], ["", "", ""]] = none
    ∧ (∃ c ∈ availableMoves [["O", "O", ""], ["X", "X", ""], ["", "", ""]],
        check_winner (setCell [["O", "O", ""], ["X", "X", ""], ["", "", ""]] c.1 c.2 "O")
          = some "O")
    ∧ check_winner
        (setCell [["O", "O", ""], ["X", "X", ""], ["", "", ""]]
          (get_minimax_move [["O", "O", ""], ["X", "X", ""], ["", "", ""]] "O" "X").1
          (get_minimax_move [["O", "O", ""], ["X", "X", ""], ["", "", ""]] "O" "X").2 "O")
        = some "O" :=
  ⟨by decide, by decide, by decide, by decide,
    hard_takes_immediate_win _ "X" (by decide) (by decide) (by decide) (by decide)⟩

/-- C3 — the `_minimax` score function satisfies the specification's
recurrence: terminal checks in the order (AI symbol has won per
`_check_winner`, opponent has won, board full), returning `10 - depth`,
`depth - 10`, `0`; otherwise, when maximizing, the score is the maximum
over placing the AI symbol in each empty cell of the recursive score at
`maximizing = false`, `depth + 1`, and dually when minimizing.  Stated
for any fuel exceeding the number of empty cells (the modelling
artifact; the recursive scores then use the decremented fuel). -/
theorem minimax_spec_recurrence (fuel : Nat) (b : Board) (d : Int) (sym ps : String)
    (hb : WF b) (hsym : sym ≠ "") (hps : ps ≠ "")
    (hfuel : (availableMoves b).length < fuel) :
    (∀ m : Bool, check_winner b = some sym → minimax fuel b d m sym ps = XInt.fin (10 - d))
    ∧ (∀ m : Bool, check_winner b ≠ some sym → check_winner b = some ps →
        minimax fuel b d m sym ps = XInt.fin (d - 10))
    ∧ (∀ m : Bool, check_winner b ≠ some sym → check_winner b ≠ some ps →
        is_board_full b = true → minimax fuel b d m sym ps = XInt.fin 0)
    ∧ (check_winner b ≠ some sym → check_winner b ≠ some ps → is_board_full b = false →
        (minimax fuel b d true sym ps
            ∈ (availableMoves b).map
                (fun c => minimax (fuel - 1) (setCell b c.1 c.2 sym) (d + 1) false sym ps)
          ∧ ∀ s ∈ (availableMoves b).map
                (fun c => minimax (fuel - 1) (setCell b c.1 c.2 sym) (d + 1) false sym ps),
              s.le (minimax fuel b d true sym ps)))
    ∧ (check_winner b ≠ some sym → check_winner b ≠ some ps → is_board_full b = false →
        (minimax fuel b d false sym ps
            ∈ (availableMoves b).map
                (fun c => minimax (fuel - 1) (setCell b c.1 c.2 ps) (d + 1) true sym ps)
          ∧ ∀ s ∈ (availableMoves b).map
                (fun c => minimax (fuel - 1) (setCell b c.1 c.2 ps) (d + 1) true sym ps),
              (minimax fuel b d false sym ps).le s)) := by
  cases fuel with
  | zero => omega
  | succ f =>
    have hf1 : f + 1 - 1 = f := rfl
    refine ⟨?_, ?_, ?_, ?_, ?_⟩
    · intro m hw
      exact minimax_win f b d m sym ps hw
    · intro m hw1 hw2
      exact minimax_lose f b d m sym ps hw1 hw2
    · intro m hw1 hw2 hfull
      exact minimax_full f b d m sym ps hw1 hw2 hfull
    · intro hw1 hw2 hfull
      rw [hf1]
      have havail : availableMoves b ≠ [] := by
        intro h
        rw [(is_board_full_iff b hb).mpr h] at hfull
        cases hfull
      rw [minimax_max_eq f b d sym ps hw1 hw2 hfull]
      constructor
      · rcases maxfold_eq_init_or_mem
            (fun c => minimax f (setCell b c.1 c.2 sym) (d + 1) false sym ps)
            (availableMoves b) XInt.negInf with h | ⟨c, hc, h⟩
        · exfalso
          obtain ⟨c, hc⟩ := List.exists_mem_of_ne_nil _ havail
          obtain ⟨z, hz⟩ := minimax_fin f (setCell b c.1 c.2 sym) (d + 1) false sym ps
            (setCell_WF b c.1 c.2 sym hb) hsym hps
            (by have := availableMoves_set_lt b c sym hb hc hsym; omega)
          have hge := maxfold_ge_elem
            (fun c => minimax f (setCell b c.1 c.2 sym) (d + 1) false sym ps)
            (availableMoves b) XInt.negInf c hc
          rw [h] at hge
          simp only at hge
          rw [hz] at hge
          exact XInt.not_fin_le_negInf z hge
        · rw [h]
          exact List.mem_map.mpr ⟨c, hc, rfl⟩
      · intro s hs
        obtain ⟨c, hc, rfl⟩ := List.mem_map.mp hs
        exact maxfold_ge_elem _ (availableMoves b) XInt.negInf c hc
    · intro hw1 hw2 hfull
      rw [hf1]
      have havail : availableMoves b ≠ [] := by
        intro h
        rw [(is_board_full_iff b hb).mpr h] at hfull
        cases hfull
      rw [minimax_min_eq f b d sym ps hw1 hw2 hfull]
      constructor
      · rcases minfold_eq_init_or_mem
            (fun c => minimax f (setCell b c.1 c.2 ps) (d + 1) true sym ps)
            (availableMoves b) XInt.posInf with h | ⟨c, hc, h⟩
        · exfalso
          obtain ⟨c, hc⟩ := List.exists_mem_of_ne_nil _ havail
          obtain ⟨z, hz⟩ := minimax_fin f (setCell b c.1 c.2 ps) (d + 1) true sym ps
            (setCell_WF b c.1 c.2 ps hb) hsym hps
            (by have := availableMoves_set_lt b c ps hb hc hps; omega)
          have hge := minfold_le_elem
            (fun c => minimax f (setCell b c.1 c.2 ps) (d + 1) true sym ps)
            (availableMoves b) XInt.posInf c hc
          rw [h] at hge
          simp only at hge
          rw [hz] at hge
          simp [XInt.le, XInt.blt] at hge
        · rw [h]
          exact List.mem_map.mpr ⟨c, hc, rfl⟩
      · intro s hs
        obtain ⟨c, hc, rfl⟩ := List.mem_map.mp hs
        exact minfold_le_elem _ (availableMoves b) XInt.posInf c hc

/-- Witness for C3 at a concrete non-terminal board with fuel 4. -/
theorem minimax_spec_recurrence_witness :
    WF [["X", "O", "X"], ["O", "X", "O"], ["", "", ""]]
    ∧ "O" ≠ "" ∧ "X" ≠ ""
    ∧ (availableMoves [["X", "O", "X"], ["O", "X", "O"], ["", "", ""]]).length < 4
    ∧ (∀ m : Bool, check_winner [["X", "O", "X"], ["O", "X", "O"], ["", "", ""]] = some "O" →
        minimax 4 [["X", "O", "X"], ["O", "X", "O"], ["", "", ""]] 0 m "O" "X"
          = XInt.fin (10 - 0))
    ∧ (∀ m : Bool, check_winner [["X", "O", "X"], ["O", "X", "O"], ["", "", ""]] ≠ some "O" →
        check_winner [["X", "O", "X"], ["O", "X", "O"], ["", "", ""]] = some "X" →
        minimax 4 [["X", "O", "X"], ["O", "X", "O"], ["", "", ""]] 0 m "O" "X"
          = XInt.fin (0 - 10))
    ∧ (∀ m : Bool, check_winner [["X", "O", "X"], ["O", "X", "O"], ["", "", ""]] ≠ some "O" →
        check_winner [["X", "O", "X"], ["O", "X", "O"], ["", "", ""]] ≠ some "X" →
        is_board_full [["X", "O", "X"], ["O", "X", "O"], ["", "", ""]] = true →
        minimax 4 [["X", "O", "X"], ["O", "X", "O"], ["", "", ""]] 0 m "O" "X" = XInt.fin 0)
    ∧ (check_winner [["X", "O", "X"], ["O", "X", "O"], ["", "", ""]] ≠ some "O" →
        check_winner [["X", "O", "X"], ["O", "X", "O"], ["", "", ""]] ≠ some "X" →
        is_board_full [["X", "O", "X"], ["O", "X", "O"], ["", "", ""]] = false →
        (minimax 4 [["X", "O", "X"], ["O", "X", "O"], ["", "", ""]] 0 true "O" "X"
            ∈ (availableMoves [["X", "O", "X"], ["O", "X", "O"], ["", "", ""]]).map
                (fun c => minimax (4 - 1)
                  (setCell [["X", "O", "X"], ["O", "X", "O"], ["", "", ""]] c.1 c.2 "O")
                  (0 + 1) false "O" "X")
          ∧ ∀ s ∈ (availableMoves [["X", "O", "X"], ["O", "X", "O"], ["", "", ""]]).map
                (fun c => minimax (4 - 1)
                  (setCell [["X", "O", "X"], ["O", "X", "O"], ["", "", ""]] c.1 c.2 "O")
                  (0 + 1) false "O" "X"),
              s.le (minimax 4 [["X", "O", "X"], ["O", "X", "O"], ["", "", ""]] 0 true "O" "X")))
    ∧ (check_winner [["X", "O", "X"], ["O", "X", "O"], ["", "", ""]] ≠ some "O" →
        check_winner [["X", "O", "X"], ["O", "X", "O"], ["", "", ""]] ≠ some "X" →
        is_board_full [["X", "O", "X"], ["O", "X", "O"], ["", "", ""]] = false →
        (minimax 4 [["X", "O", "X"], ["O", "X", "O"], ["", "", ""]] 0 false "O" "X"
            ∈ (availableMoves [["X", "O", "X"], ["O", "X", "O"], ["", "", ""]]).map
                (fun c => minimax (4 - 1)
                  (setCell [["X", "O", "X"], ["O", "X", "O"], ["", "", ""]] c.1 c.2 "X")
                  (0 + 1) true "O" "X")
          ∧ ∀ s ∈ (availableMoves [["X", "O", "X"], ["O", "X", "O"], ["", "", ""]]).map
                (fun c => minimax (4 - 1)
                  (setCell [["X", "O", "X"], ["O", "X", "O"], ["", "", ""]] c.1 c.2 "X")
                  (0 + 1) true "O" "X"),
              (minimax 4 [["X", "O", "X"], ["O", "X", "O"], ["", "", ""]] 0 false "O" "X").le s)) := by
  refine ⟨by decide, by decide, by decide, by decide, ?_⟩
  exact minimax_spec_recurrence 4 [["X", "O", "X"], ["O", "X", "O"], ["", "", ""]] 0 "O" "X"
    (by decide) (by decide) (by decide) (by decide)

/-- The blocking cells of `_get_medium_move`: available cells whose
occupation by the opponent symbol completes an opponent line. -/
lemma medium_find_eq (b : Board) (ps : String) :
    cells9.find? (fun c =>
        decide (cell b c.1 c.2 = "" ∧ check_winner (setCell b c.1 c.2 ps) = some ps))
      = ((availableMoves b).filter
          (fun c => decide (check_winner (setCell b c.1 c.2 ps) = some ps))).head? := by
  rw [find?_eq_head_filter]
  congr 1
  unfold availableMoves
  rw [List.filter_filter]
  apply List.filter_congr
  intro c _
  rw [Bool.decide_and]
  exact (Bool.and_comm _ _)

/-- C6 — `_get_medium_move`: it returns the first empty cell in
row-major order whose hypothetical occupation by the opponent symbol
makes `_check_winner` report the opponent, with no further search; with
no such cell it falls back to the uniform choice among the empty cells
(every empty cell is selected under some draw); and it does not play
its own winning move: a board exists with an immediate AI win available,
no blocking cell, and a draw on which the selected cell is not the
winning one. -/
theorem get_medium_move_blocks_or_random :
    (∀ (b : Board) (ps : String) (r : Nat) (c : Nat × Nat),
      ((availableMoves b).filter
          (fun e => decide (check_winner (setCell b e.1 e.2 ps) = some ps))).head? = some c →
      get_medium_move b ps r = c)
    ∧ (∀ (b : Board) (ps : String) (r : Nat),
        ((availableMoves b).filter
            (fun e => decide (check_winner (setCell b e.1 e.2 ps) = some ps))) = [] →
        availableMoves b ≠ [] →
        get_medium_move b ps r
            = (availableMoves b).getD (r % (availableMoves b).length) (0, 0)
          ∧ get_medium_move b ps r ∈ availableMoves b
          ∧ ∀ c ∈ availableMoves b, ∃ r2 : Nat, get_medium_move b ps r2 = c)
    ∧ (∃ (b : Board) (w : Nat × Nat) (r : Nat),
        WF b ∧ w ∈ availableMoves b
        ∧ check_winner (setCell b w.1 w.2 "O") = some "O"
        ∧ ((availableMoves b).filter
            (fun e => decide (check_winner (setCell b e.1 e.2 "X") = some "X"))) = []
        ∧ get_medium_move b "X" r ≠ w) := by
  have hfall : ∀ (b : Board) (ps : String) (r : Nat),
      ((availableMoves b).filter
          (fun e => decide (check_winner (setCell b e.1 e.2 ps) = some ps))) = [] →
      availableMoves b ≠ [] →
      get_medium_move b ps r
        = (availableMoves b).getD (r % (availableMoves b).length) (0, 0) := by
    intro b ps r hblock hne
    unfold get_medium_move
    rw [medium_find_eq, hblock]
    simp only [List.head?_nil]
    unfold get_random_move
    have hempty : (availableMoves b).isEmpty = false := by
      cases he : (availableMoves b).isEmpty
      · rfl
      · exact absurd (List.isEmpty_iff.mp he) hne
    simp [hempty]
  refine ⟨?_, ?_, ?_⟩
  · intro b ps r c hc
    unfold get_medium_move
    rw [medium_find_eq, hc]
  · intro b ps r hblock hne
    have hlen : 0 < (availableMoves b).length := List.length_pos.mpr hne
    refine ⟨hfall b ps r hblock hne, ?_, ?_⟩
    · rw [hfall b ps r hblock hne]
      have hk : r % (availableMoves b).length < (availableMoves b).length :=
        Nat.mod_lt r hlen
      simp only [List.getD_eq_getElem?_getD, List.getElem?_eq_getElem hk]
      exact List.getElem_mem hk
    · intro c hc
      obtain ⟨k, hk, ek⟩ := List.getElem_of_mem hc
      refine ⟨k, ?_⟩
      rw [hfall b ps k hblock hne]
      rw [Nat.mod_eq_of_lt hk]
      simp only [List.getD_eq_getElem?_getD, List.getElem?_eq_getElem hk]
      exact ek
  · exact ⟨[["O", "O", ""], ["X", "", ""], ["", "", ""]], (0, 2), 1,
      by decide, by decide, by decide, by decide, by decide⟩

/-- Witness for C6: a blocking board where the first blocking cell is
returned, applied through the main theorem. -/
theorem get_medium_move_blocks_or_random_witness :
    ((availableMoves [["X", "X", ""], ["O", "", ""], ["", "", ""]]).filter
        (fun e => decide (check_winner
          (setCell [["X", "X", ""], ["O", "", ""], ["", "", ""]] e.1 e.2 "X")
            = some "X"))).head? = some (0, 2)
    ∧ get_medium_move [["X", "X", ""], ["O", "", ""], ["", "", ""]] "X" 7 = (0, 2) :=
  ⟨by decide,
    get_medium_move_blocks_or_random.1 [["X", "X", ""], ["O", "", ""], ["", "", ""]]
      "X" 7 (0, 2) (by decide)⟩

/-- The place / recurse / undo loop of the state-passing `_minimax`
computes the pure fold's score and hands back the unchanged board. -/
lemma stfold_pair (fSt : Board → XInt × Board) (f : Board → XInt)
    (hf : ∀ bb, fSt bb = (f bb, bb)) (comb : XInt → XInt → XInt) (s : String) (b : Board) :
    ∀ (cells : List (Nat × Nat)) (x : XInt),
      cells.foldl (fun (acc : XInt × Board) c =>
        if cell acc.2 c.1 c.2 = "" then
          (comb (fSt (setCell acc.2 c.1 c.2 s)).1 acc.1,
            setCell (fSt (setCell acc.2 c.1 c.2 s)).2 c.1 c.2 "")
        else acc) (x, b)
      = (cells.foldl (fun best c =>
          if cell b c.1 c.2 = "" then comb (f (setCell b c.1 c.2 s)) best else best) x, b) := by
  intro cells
  induction cells with
  | nil => intro x; rfl
  | cons c rest ih =>
    intro x
    rw [List.foldl_cons, List.foldl_cons]
    by_cases hc : cell b c.1 c.2 = ""
    · rw [if_pos (show cell ((x, b) : XInt × Board).2 c.1 c.2 = "" from hc)]
      rw [show ((x, b) : XInt × Board).2 = b from rfl]
      rw [hf (setCell b c.1 c.2 s)]
      rw [show ((f (setCell b c.1 c.2 s), setCell b c.1 c.2 s) : XInt × Board).1
        = f (setCell b c.1 c.2 s) from rfl]
      rw [show ((f (setCell b c.1 c.2 s), setCell b c.1 c.2 s) : XInt × Board).2
        = setCell b c.1 c.2 s from rfl]
      rw [setCell_cancel b c.1 c.2 s hc]
      rw [if_pos hc]
      exact ih _
    · rw [if_neg (show ¬ cell ((x, b) : XInt × Board).2 c.1 c.2 = "" from hc)]
      rw [if_neg hc]
      exact ih x

set_option maxHeartbeats 1000000 in
/-- The state-passing `_minimax` computes the pure `_minimax` score and
returns the board it was given: every trial placement is undone. -/
lemma minimaxSt_eq : ∀ (fuel : Nat) (b : Board) (d : Int) (m : Bool) (sym ps : String),
    minimaxSt fuel b d m sym ps = (minimax fuel b d m sym ps, b) := by
  intro fuel
  induction fuel with
  | zero => intro b d m sym ps; rfl
  | succ f ih =>
    intro b d m sym ps
    by_cases hw1 : check_winner b = some sym
    · simp [minimaxSt, minimax, hw1]
    by_cases hw2 : check_winner b = some ps
    · by_cases hps : ps = sym <;> simp [minimaxSt, minimax, hw1, hw2, hps]
    by_cases hfull : is_board_full b = true
    · simp [minimaxSt, minimax, hw1, hw2, hfull]
    cases m with
    | true =>
      have eSt : minimaxSt (f + 1) b d true sym ps
          = cells9.foldl (fun (acc : XInt × Board) c =>
              if cell acc.2 c.1 c.2 = "" then
                (XInt.max (minimaxSt f (setCell acc.2 c.1 c.2 sym) (d + 1) false sym ps).1 acc.1,
                  setCell (minimaxSt f (setCell acc.2 c.1 c.2 sym) (d + 1) false sym ps).2
                    c.1 c.2 "")
              else acc) (XInt.negInf, b) := by
        simp [minimaxSt, hw1, hw2, hfull]
      have epure : minimax (f + 1) b d true sym ps
          = cells9.foldl (fun best c =>
              if cell b c.1 c.2 = "" then
                XInt.max (minimax f (setCell b c.1 c.2 sym) (d + 1) false sym ps) best
              else best) XInt.negInf := by
        simp [minimax, hw1, hw2, hfull]
      rw [eSt, epure]
      exact stfold_pair (fun bb => minimaxSt f bb (d + 1) false sym ps)
        (fun bb => minimax f bb (d + 1) false sym ps)
        (fun bb => ih bb (d + 1) false sym ps) XInt.max sym b cells9 XInt.negInf
    | false =>
      have eSt : minimaxSt (f + 1) b d false sym ps
          = cells9.foldl (fun (acc : XInt × Board) c =>
              if cell acc.2 c.1 c.2 = "" then
                (XInt.min (minimaxSt f (setCell acc.2 c.1 c.2 ps) (d + 1) true sym ps).1 acc.1,
                  setCell (minimaxSt f (setCell acc.2 c.1 c.2 ps) (d + 1) true sym ps).2
                    c.1 c.2 "")
              else acc) (XInt.posInf, b) := by
        simp [minimaxSt, hw1, hw2, hfull]
      have epure : minimax (f + 1) b d false sym ps
          = cells9.foldl (fun best c =>
              if cell b c.1 c.2 = "" then
                XInt.min (minimax f (setCell b c.1 c.2 ps) (d + 1) true sym ps) best
              else best) XInt.posInf := by
        simp [minimax, hw1, hw2, hfull]
      rw [eSt, epure]
      exact stfold_pair (fun bb => minimaxSt f bb (d + 1) true sym ps)
        (fun bb => minimax f bb (d + 1) true sym ps)
        (fun bb => ih bb (d + 1) true sym ps) XInt.min ps b cells9 XInt.posInf

/-- The scan loop of the state-passing `_get_minimax_move` computes the
pure loop's result and restores the board at every iteration. -/
lemma getmmSt_fold_pair (b : Board) (sym ps : String) :
    ∀ (cells : List (Nat × Nat)) (x : XInt × (Nat × Nat)),
      cells.foldl (fun (acc : (XInt × (Nat × Nat)) × Board) c =>
        if cell acc.2 c.1 c.2 = "" then
          (if acc.1.1.blt (minimaxSt 9 (setCell acc.2 c.1 c.2 sym) 0 false sym ps).1
            then ((minimaxSt 9 (setCell acc.2 c.1 c.2 sym) 0 false sym ps).1, c)
            else acc.1,
            setCell (minimaxSt 9 (setCell acc.2 c.1 c.2 sym) 0 false sym ps).2
              c.1 c.2 "")
        else acc) (x, b)
      = (cells.foldl (fun (acc : XInt × (Nat × Nat)) c =>
          if cell b c.1 c.2 = "" then
            if acc.1.blt (cellScore b sym ps c) then (cellScore b sym ps c, c) else acc
          else acc) x, b) := by
  intro cells
  induction cells with
  | nil => intro x; rfl
  | cons c rest ih =>
    intro x
    rw [List.foldl_cons, List.foldl_cons]
    by_cases hc : cell b c.1 c.2 = ""
    · rw [if_pos (show cell ((x, b) : (XInt × (Nat × Nat)) × Board).2 c.1 c.2 = "" from hc)]
      rw [show ((x, b) : (XInt × (Nat × Nat)) × Board).2 = b from rfl]
      rw [minimaxSt_eq 9 (setCell b c.1 c.2 sym) 0 false sym ps]
      rw [show ((minimax 9 (setCell b c.1 c.2 sym) 0 false sym ps, setCell b c.1 c.2 sym)
        : XInt × Board).1 = minimax 9 (setCell b c.1 c.2 sym) 0 false sym ps from rfl]
      rw [show ((minimax 9 (setCell b c.1 c.2 sym) 0 false sym ps, setCell b c.1 c.2 sym)
        : XInt × Board).2 = setCell b c.1 c.2 sym from rfl]
      rw [setCell_cancel b c.1 c.2 sym hc]
      rw [if_pos hc]
      rw [show ((x, b) : (XInt × (Nat × Nat)) × Board).1 = x from rfl]
      exact ih _
    · rw [if_neg (show ¬ cell ((x, b) : (XInt × (Nat × Nat)) × Board).2 c.1 c.2 = "" from hc)]
      rw [if_neg hc]
      exact ih x

/-- The state-passing `_get_minimax_move` returns the pure move and the
unchanged board. -/
lemma get_minimax_moveSt_eq (b : Board) (sym ps : String) :
    get_minimax_moveSt b sym ps = (get_minimax_move b sym ps, b) := by
  unfold get_minimax_moveSt
  rw [getmmSt_fold_pair b sym ps cells9 (XInt.negInf, (0, 0))]
  rfl

/-- The blocking loop of the state-passing `_get_medium_move` restores
the caller's board. -/
lemma mediumLoopSt_snd : ∀ (cells : List (Nat × Nat)) (b : Board) (ps : String),
    (mediumLoopSt cells b ps).2 = b := by
  intro cells
  induction cells with
  | nil => intro b ps; rfl
  | cons c rest ih =>
    intro b ps
    unfold mediumLoopSt
    by_cases hc : cell b c.1 c.2 = ""
    · rw [if_pos hc]
      by_cases hwin : check_winner (setCell b c.1 c.2 ps) = some ps
      · rw [if_pos hwin]
        exact setCell_cancel b c.1 c.2 ps hc
      · rw [if_neg hwin]
        rw [setCell_cancel b c.1 c.2 ps hc]
        exact ih b ps
    · rw [if_neg hc]
      exact ih b ps

/-- C8 — frame property of `choose_move`: at every difficulty tier the
state-passing embedding, which performs the source's in-place trial
placements and undo writes literally, hands back exactly the board it
was given: all hypothetical placements of the Medium blocking scan and
of the Hard minimax search are undone. -/
theorem get_move_leaves_board_unchanged (dif : Difficulty) (b : Board) (r : Nat)
    (ps : String) (h : availableMoves b ≠ []) :
    (AI.get_moveSt (AI.init dif) b r ps).2 = b := by
  cases dif with
  | easy => rfl
  | medium =>
    show (get_medium_moveSt b ps r).2 = b
    unfold get_medium_moveSt
    have hb2 := mediumLoopSt_snd cells9 b ps
    cases hres : mediumLoopSt cells9 b ps with
    | mk o b2 =>
      rw [hres] at hb2
      cases o with
      | none => simpa using hb2
      | some c => simpa using hb2
  | hard =>
    show (get_minimax_moveSt b "O" ps).2 = b
    rw [get_minimax_moveSt_eq b "O" ps]

/-- Witness for C8 on a mid-game board, Hard tier. -/
theorem get_move_leaves_board_unchanged_witness :
    availableMoves [["X", "O", ""], ["", "X", ""], ["", "", ""]] ≠ []
    ∧ (AI.get_moveSt (AI.init .hard) [["X", "O", ""], ["", "X", ""], ["", "", ""]] 0 "X").2
        = [["X", "O", ""], ["", "X", ""], ["", "", ""]] :=
  ⟨by decide,
    get_move_leaves_board_unchanged .hard [["X", "O", ""], ["", "X", ""], ["", "", ""]]
      0 "X" (by decide)⟩

set_option maxRecDepth 10000 in
lemma noLose_X00 : noLoseSearch 9 (setCell emptyBoard 0 0 "X") true = true := by decide!

set_option maxRecDepth 10000 in
lemma noLose_X01 : noLoseSearch 9 (setCell emptyBoard 0 1 "X") true = true := by decide!

set_option maxRecDepth 10000 in
lemma noLose_X02 : noLoseSearch 9 (setCell emptyBoard 0 2 "X") true = true := by decide!

set_option maxRecDepth 10000 in
lemma noLose_X10 : noLoseSearch 9 (setCell emptyBoard 1 0 "X") true = true := by decide!

set_option maxRecDepth 10000 in
lemma noLose_X11 : noLoseSearch 9 (setCell emptyBoard 1 1 "X") true = true := by decide!

set_option maxRecDepth 10000 in
lemma noLose_X12 : noLoseSearch 9 (setCell emptyBoard 1 2 "X") true = true := by decide!

set_option maxRecDepth 10000 in
lemma noLose_X20 : noLoseSearch 9 (setCell emptyBoard 2 0 "X") true = true := by decide!

set_option maxRecDepth 10000 in
lemma noLose_X21 : noLoseSearch 9 (setCell emptyBoard 2 1 "X") true = true := by decide!

set_option maxRecDepth 10000 in
lemma noLose_X22 : noLoseSearch 9 (setCell emptyBoard 2 2 "X") true = true := by decide!

set_option maxRecDepth 10000 in
lemma noLose_O00 : noLoseSearch 9 (setCell emptyBoard 0 0 "O") false = true := by decide!

/-- Assembled: from the empty board with the opponent moving first, the
and-or search confirms the AI cannot be forced to lose. -/
lemma noLose_root_oppFirst : noLoseSearch 10 emptyBoard false = true := by
  have e : noLoseSearch 10 emptyBoard false
      = (availableMoves emptyBoard).all
          (fun c => noLoseSearch 9 (setCell emptyBoard c.1 c.2 "X") true) := rfl
  rw [e]
  have e2 : availableMoves emptyBoard = cells9 := rfl
  rw [e2]
  show (List.all [(0,0),(0,1),(0,2),(1,0),(1,1),(1,2),(2,0),(2,1),(2,2)]
    (fun c => noLoseSearch 9 (setCell emptyBoard c.1 c.2 "X") true)) = true
  simp only [List.all_cons, List.all_nil]
  simp only [noLose_X00, noLose_X01, noLose_X02, noLose_X10, noLose_X11, noLose_X12,
    noLose_X20, noLose_X21, noLose_X22]
  rfl

/-- Assembled: from the empty board with the AI moving first, the
and-or search confirms the AI cannot be forced to lose. -/
lemma noLose_root_aiFirst : noLoseSearch 10 emptyBoard true = true := by
  have e : noLoseSearch 10 emptyBoard true
      = (availableMoves emptyBoard).any
          (fun c => noLoseSearch 9 (setCell emptyBoard c.1 c.2 "O") false) := rfl
  rw [e]
  have e2 : availableMoves emptyBoard = cells9 := rfl
  rw [e2]
  show (List.any [(0,0),(0,1),(0,2),(1,0),(1,1),(1,2),(2,0),(2,1),(2,2)]
    (fun c => noLoseSearch 9 (setCell emptyBoard c.1 c.2 "O") false)) = true
  simp only [List.any_cons]
  simp only [noLose_O00]
  rfl

/-- C2 — the claim as frozen is refuted: the specification's own test
scenario `[[X,O,X],[O,X,O],[_,_,_]]` is legally reachable with the AI
(`'O'`, having moved first) to move, every available move has minimax
score `-9`, and against the opponent reply `(2,2)` the game in which the
AI selects its moves via `choose_move` ends with `'X'` winning. -/
theorem hard_tier_loses_from_reachable_position :
    legalSeq emptyBoard
        [((0,1),"O"), ((0,0),"X"), ((1,0),"O"), ((0,2),"X"), ((1,2),"O"), ((1,1),"X")] = true
    ∧ placeAll emptyBoard
        [((0,1),"O"), ((0,0),"X"), ((1,0),"O"), ((0,2),"X"), ((1,2),"O"), ((1,1),"X")]
        = scenarioBoard
    ∧ check_winner scenarioBoard = none
    ∧ is_board_full scenarioBoard = false
    ∧ check_winner (playFrom 9 scenarioBoard true [(2, 2)]) = some "X" := by
  refine ⟨by decide!, by decide!, by decide!, by decide!, by decide!⟩

/-- C2 (amended) — Hard-tier AI never loses from the game's start: in
every complete game from the empty board in which the Hard-tier AI
(symbol `'O'`) selects all of its own moves via `choose_move`, whichever
side moves first and whatever legal moves the opponent plays, the
terminal outcome is a draw or an AI win, never an opponent win. -/
theorem hard_ai_never_loses_from_empty :
    aiSafe 10 emptyBoard false = true ∧ aiSafe 10 emptyBoard true = true := by
  constructor
  · have hge : (XInt.fin 0).le (minimax 10 emptyBoard 0 false "O" "X") :=
      (noLoseSearch_iff_ge0 9 10 10 emptyBoard false 0 (by decide) (by decide)
        (by decide) (by omega) (by omega) (by omega)).mp noLose_root_oppFirst
    apply aiSafe_sound 9 emptyBoard false 10 (by decide) (by decide) (by decide) (by omega)
    simpa using hge
  · have hge : (XInt.fin 0).le (minimax 10 emptyBoard 0 true "O" "X") :=
      (noLoseSearch_iff_ge0 9 10 10 emptyBoard true 0 (by decide) (by decide)
        (by decide) (by omega) (by omega) (by omega)).mp noLose_root_aiFirst
    apply aiSafe_sound 9 emptyBoard true 10 (by decide) (by decide) (by decide) (by omega)
    simpa using hge
